import Mathlib

/-!
# GigaMerge: batch reconstruction of `FGigaMergeTool::RunMerge`

Shallow embedding of `Plugins/GigaMerge/Source/GigaMerge/Private/GigaMergeTool.cpp`.

Conventions of the embedding

* A `TArray` is a `List`; `operator[]` is a checked lookup whose failure is the
  fatal range check (`Fault.OutOfRange`).
* `checkf`, `CastChecked` and a dereferenced null pointer are fatal: the run ends with a
  `Fault` and nothing of it survives, so a run is an `Except Fault _`.
* `uint32` and `int32` values are `Nat` and `Int`; `FirstIndex += n` wraps modulo `2 ^ 32`
  and the store of a `uint32` into the `int32` field `TotalNumTriangles` is `toInt32`.
* Array lengths, loop counters and `NumElements` (`int32` in the source) are `Nat`: a
  `TArray` holds fewer than `2 ^ 31` elements, so they do not overflow.
* Engine value types the tool only copies (vectors, transforms, bounds) are type
  parameters `V`, `T`, `B`; the engine operations on them are the fields of `EngineMath`.
* A material is read only through `GetName()` and only compared with `==`, so it is
  represented by its name, a token taken up to the equality `FString` uses.
-/

namespace GigaMerge

/-! ## Data model -/

/-- Fatal outcomes of a run. -/
inductive Fault where
  /-- The check `checkf(World != nullptr, ...)` in `MergeComponents`. -/
  | WorldCheck
  /-- The check `checkf(Assets.Num() == 1, ...)` in `RunMerge`. -/
  | AssetsCheck
  /-- The cast `CastChecked<UStaticMesh>(Assets[0])`. -/
  | CastCheck
  /-- The range check of `TArray::operator[]`. -/
  | OutOfRange
  /-- A member access through a null pointer. -/
  | NullDeref
  deriving DecidableEq, Repr

/-- The value of `INDEX_NONE`. -/
def INDEX_NONE : Int := -1

/-- Conversion of a `uint32` value to `int32`. -/
def toInt32 (n : Nat) : Int :=
  if n % 2 ^ 32 < 2 ^ 31 then ((n % 2 ^ 32 : Nat) : Int) else ((n % 2 ^ 32 : Nat) : Int) - 2 ^ 32

/-- A material object, as far as the tool reads it: its `GetName()`. -/
structure UMaterialInterface where
  Name : Nat
  deriving DecidableEq, Repr

/-- The call `Material->GetName()` on a possibly null material pointer. -/
def GetName : Option UMaterialInterface → Except Fault Nat
  | none => .error .NullDeref
  | some M => .ok M.Name

/-- The fields of `FStaticMeshSection` that the tool reads. -/
structure FStaticMeshSection where
  MaterialIndex : Int
  NumTriangles : Nat
  deriving DecidableEq, Repr

/-- A static mesh: `GetRenderData()->LODResources[i].Sections`, `GetMaterial` and
`GetBounds()`. `GetNumLODs` and `GetNumSections` are the lengths of the section lists. -/
structure UStaticMesh (B : Type) where
  LODResources : List (List FStaticMeshSection)
  GetMaterial : Int → Option UMaterialInterface
  Bounds : B

/-- The call `StaticMesh->GetNumLODs()`. -/
def UStaticMesh.GetNumLODs {B : Type} (Mesh : UStaticMesh B) : Nat :=
  Mesh.LODResources.length

/-- The call `StaticMesh->GetNumSections(LODIndex)`. -/
def UStaticMesh.GetNumSections {B : Type} (Mesh : UStaticMesh B) (LODIndex : Nat) : Nat :=
  (Mesh.LODResources.getD LODIndex []).length

/-- A static-mesh component: `GetStaticMesh()` (possibly null), `GetComponentTransform()`
and `GetMaterial(slot)`, the material of a slot with the component's overrides resolved. -/
structure UStaticMeshComponent (T B : Type) where
  StaticMesh : Option (UStaticMesh B)
  ComponentTransform : T
  GetMaterial : Int → Option UMaterialInterface

/-- A selected primitive component: `GetWorld()` (`true` when not null) and the result of
`Cast<UStaticMeshComponent>`. -/
structure UPrimitiveComponent (T B : Type) where
  HasWorld : Bool
  AsStaticMeshComponent : Option (UStaticMeshComponent T B)

/-- An asset returned by the merge utilities. -/
inductive UObject (B : Type) where
  | StaticMesh (Mesh : UStaticMesh B)
  | Other

/-- Engine operations on vectors, transforms and bounds used for `SubBounds`:
`FTransform{Pivot}`, `A.GetRelativeTransform(Other)` and `Bounds.TransformBy(M)`. -/
structure EngineMath (V T B : Type) where
  Translation : V → T
  GetRelativeTransform : T → T → T
  TransformBy : B → T → B

/-- Local struct `FMeshSectionInfo` of `RunMerge`. -/
structure FMeshSectionInfo where
  Material : Option UMaterialInterface
  ComponentIndex : List Int
  NumTriangles : List Nat
  NumElements : Nat
  TotalNumTriangles : Int
  deriving DecidableEq, Repr

/-- Modelled from the spec: `FGigaBatchElement` (declared in `GigaMeshData.h`), one element
of a batch, with the fields `RunMerge` assigns: the bounds, the starting triangle index and
the triangle count, both taken as `uint32`. -/
structure FGigaBatchElement (B : Type) where
  Bounds : B
  FirstIndex : Nat
  NumTriangles : Nat
  deriving DecidableEq, Repr

/-- Modelled from the spec: `FGigaBatch` (declared in `GigaMeshData.h`), the ordered sequence
`Elements` of the batch elements of one (LOD index, section index) pair. -/
structure FGigaBatch (B : Type) where
  Elements : List (FGigaBatchElement B)
  deriving DecidableEq, Repr

/-- One `SaveBatch` call: the key and the batch. -/
structure FSavedBatch (B : Type) where
  LODIndex : Nat
  SectionIndex : Nat
  Batch : FGigaBatch B
  deriving DecidableEq, Repr

/-- Modelled from the spec: `FGigaBatchMap` (declared in `GigaMeshData.h`) is the collection
of batches addressable by (LOD index, section index). It is kept as the list of the
`SaveBatch` calls in call order. -/
abbrev FGigaBatchMap (B : Type) := List (FSavedBatch B)

/-- Modelled from the spec: `BatchMap.SaveBatch(LODIndex, SectionIndex, Batch)` records the
batch under the key. -/
def SaveBatch {B : Type} (Map : FGigaBatchMap B) (LODIndex SectionIndex : Nat)
    (Batch : FGigaBatch B) : FGigaBatchMap B :=
  Map ++ [⟨LODIndex, SectionIndex, Batch⟩]

/-- The batches saved under a key, in call order. -/
def savedAt {B : Type} (Map : FGigaBatchMap B) (LODIndex SectionIndex : Nat) :
    List (FGigaBatch B) :=
  (Map.filter fun S => S.LODIndex = LODIndex ∧ S.SectionIndex = SectionIndex).map
    fun S => S.Batch

/-! ## `RunMerge`, first pass: collect the sections of the merged mesh -/

/-- Lines 93-108: one accumulator per section of the merged mesh. -/
def collectSections {B : Type} (StaticMesh : UStaticMesh B) : List (List FMeshSectionInfo) :=
  StaticMesh.LODResources.map fun Sections =>
    Sections.map fun Section =>
      { Material := StaticMesh.GetMaterial Section.MaterialIndex
        ComponentIndex := []
        NumTriangles := []
        NumElements := 0
        TotalNumTriangles := toInt32 Section.NumTriangles }

/-! ## Second pass: accumulate component index and triangles -/

/-- Lines 133-143: the body of the loop over `Resources[LODIndex]`. -/
def accumulateInfo (ComponentIndex : Int) (Material : Option UMaterialInterface)
    (NumTriangles : Nat) (Info : FMeshSectionInfo) : Except Fault FMeshSectionInfo :=
  match GetName Material, GetName Info.Material with
  | .ok a, .ok b =>
    if a = b then
      .ok { Info with
        ComponentIndex := Info.ComponentIndex ++ [ComponentIndex]
        NumTriangles := Info.NumTriangles ++ [NumTriangles]
        NumElements := Info.NumElements + 1 }
    else
      .ok { Info with
        ComponentIndex := Info.ComponentIndex ++ [INDEX_NONE]
        NumTriangles := Info.NumTriangles ++ [0]
        NumElements := Info.NumElements + 1 }
  | _, _ => .error .NullDeref

/-- Line 131: `for (auto& Info : Resources[LODIndex])`. -/
def accumulateInfos (ComponentIndex : Int) (Material : Option UMaterialInterface)
    (NumTriangles : Nat) : List FMeshSectionInfo → Except Fault (List FMeshSectionInfo)
  | [] => .ok []
  | Info :: Rest =>
    match accumulateInfo ComponentIndex Material NumTriangles Info with
    | .error e => .error e
    | .ok Info1 =>
      match accumulateInfos ComponentIndex Material NumTriangles Rest with
      | .error e => .error e
      | .ok Rest1 => .ok (Info1 :: Rest1)

/-- Lines 129-144: the body of the loop over the sections of a source LOD. -/
def accumulateSection {T B : Type} (ComponentIndex : Int) (MeshComponent : UStaticMeshComponent T B)
    (LODIndex : Nat) (Section : FStaticMeshSection) (Resources : List (List FMeshSectionInfo)) :
    Except Fault (List (List FMeshSectionInfo)) :=
  match Resources[LODIndex]? with
  | none => .error .OutOfRange
  | some Infos =>
    match accumulateInfos ComponentIndex (MeshComponent.GetMaterial Section.MaterialIndex)
        Section.NumTriangles Infos with
    | .error e => .error e
    | .ok Infos1 => .ok (Resources.set LODIndex Infos1)

/-- Line 127: the loop over the sections of one source LOD. -/
def accumulateSections {T B : Type} (ComponentIndex : Int) (MeshComponent : UStaticMeshComponent T B)
    (LODIndex : Nat) : List FStaticMeshSection → List (List FMeshSectionInfo) →
    Except Fault (List (List FMeshSectionInfo))
  | [], Resources => .ok Resources
  | Section :: Rest, Resources =>
    match accumulateSection ComponentIndex MeshComponent LODIndex Section Resources with
    | .error e => .error e
    | .ok Resources1 => accumulateSections ComponentIndex MeshComponent LODIndex Rest Resources1

/-- Line 124: the loop over the LODs of one source mesh, `LODIndex` counting up. -/
def accumulateLODs {T B : Type} (ComponentIndex : Int) (MeshComponent : UStaticMeshComponent T B) :
    Nat → List (List FStaticMeshSection) → List (List FMeshSectionInfo) →
    Except Fault (List (List FMeshSectionInfo))
  | _, [], Resources => .ok Resources
  | LODIndex, Sections :: Rest, Resources =>
    match accumulateSections ComponentIndex MeshComponent LODIndex Sections Resources with
    | .error e => .error e
    | .ok Resources1 => accumulateLODs ComponentIndex MeshComponent (LODIndex + 1) Rest Resources1

/-- Lines 116-119: the bounds of a component's mesh in the frame of the pivot. -/
def pivotBounds {V T B : Type} (E : EngineMath V T B) (Pivot : V)
    (MeshComponent : UStaticMeshComponent T B) (Mesh : UStaticMesh B) : B :=
  let Origin := E.Translation Pivot
  let Offset := E.GetRelativeTransform MeshComponent.ComponentTransform Origin
  E.TransformBy Mesh.Bounds Offset

/-- Lines 110-148: the loop over `MergingComponents`, `ComponentIndex` counting up. -/
def accumulateComponents {V T B : Type} (E : EngineMath V T B) (Pivot : V) :
    Nat → List (UPrimitiveComponent T B) → List B → List (List FMeshSectionInfo) →
    Except Fault (List B × List (List FMeshSectionInfo))
  | _, [], SubBounds, Resources => .ok (SubBounds, Resources)
  | ComponentIndex, Component :: Rest, SubBounds, Resources =>
    match Component.AsStaticMeshComponent with
    | none => accumulateComponents E Pivot (ComponentIndex + 1) Rest SubBounds Resources
    | some MeshComponent =>
      match MeshComponent.StaticMesh with
      | none => .error .NullDeref
      | some Mesh =>
        let SubBounds1 := SubBounds ++ [pivotBounds E Pivot MeshComponent Mesh]
        match accumulateLODs (ComponentIndex : Int) MeshComponent 0 Mesh.LODResources Resources with
        | .error e => .error e
        | .ok Resources1 =>
          accumulateComponents E Pivot (ComponentIndex + 1) Rest SubBounds1 Resources1

/-! ## Third pass: emit the batches -/

/-- The lookup `SubBounds[Index]` for an `int32` index. -/
def lookupBounds {B : Type} (SubBounds : List B) (Index : Int) : Option B :=
  if 0 ≤ Index then SubBounds[Index.toNat]? else none

/-- Lines 159-169: the loop over `ElementIndex`; the first argument counts the iterations
left, `NumElements - ElementIndex`. Returns `FirstIndex` and `Batch.Elements`. -/
def emitElements {B : Type} (SubBounds : List B) (SectionInfo : FMeshSectionInfo) :
    Nat → Nat → Nat → List (FGigaBatchElement B) → Except Fault (Nat × List (FGigaBatchElement B))
  | 0, _, FirstIndex, Elements => .ok (FirstIndex, Elements)
  | Left + 1, ElementIndex, FirstIndex, Elements =>
    match SectionInfo.ComponentIndex[ElementIndex]? with
    | none => .error .OutOfRange
    | some Index =>
      if Index = INDEX_NONE then
        emitElements SubBounds SectionInfo Left (ElementIndex + 1) FirstIndex Elements
      else
        match lookupBounds SubBounds Index with
        | none => .error .OutOfRange
        | some Bounds =>
          match SectionInfo.NumTriangles[ElementIndex]? with
          | none => .error .OutOfRange
          | some NumTriangles =>
            emitElements SubBounds SectionInfo Left (ElementIndex + 1)
              ((FirstIndex + NumTriangles) % 2 ^ 32)
              (Elements ++ [⟨Bounds, FirstIndex, NumTriangles⟩])

/-- Lines 154-171: the loop over `SectionIndex` of one merged LOD; the first argument counts
the iterations left, `NumMergedSections - SectionIndex`. -/
def emitSections {B : Type} (SubBounds : List B) (Resources : List (List FMeshSectionInfo))
    (LODIndex : Nat) : Nat → Nat → Nat → FGigaBatchMap B → Except Fault (FGigaBatchMap B)
  | 0, _, _, Map => .ok Map
  | Left + 1, SectionIndex, FirstIndex, Map =>
    match Resources[LODIndex]? with
    | none => .error .OutOfRange
    | some Infos =>
      match Infos[SectionIndex]? with
      | none => .error .OutOfRange
      | some SectionInfo =>
        match emitElements SubBounds SectionInfo SectionInfo.NumElements 0 FirstIndex [] with
        | .error e => .error e
        | .ok (FirstIndex1, Elements) =>
          emitSections SubBounds Resources LODIndex Left (SectionIndex + 1) FirstIndex1
            (SaveBatch Map LODIndex SectionIndex ⟨Elements⟩)

/-- Lines 150-172: the loop over `LODIndex`; the first argument counts the iterations left,
`NumMergedLODs - LODIndex`. `FirstIndex` is set to 0 once per LOD (line 153). -/
def emitLODs {B : Type} (StaticMesh : UStaticMesh B) (SubBounds : List B)
    (Resources : List (List FMeshSectionInfo)) :
    Nat → Nat → FGigaBatchMap B → Except Fault (FGigaBatchMap B)
  | 0, _, Map => .ok Map
  | Left + 1, LODIndex, Map =>
    match emitSections SubBounds Resources LODIndex (StaticMesh.GetNumSections LODIndex) 0 0 Map with
    | .error e => .error e
    | .ok Map1 => emitLODs StaticMesh SubBounds Resources Left (LODIndex + 1) Map1

/-! ## `RunMerge` -/

/-- Lines 87-175 of `RunMerge`, "Calculate batches": the batch map saved into the new
`GigaMesh` for the merged `StaticMesh`, the `Pivot` and the selected components. -/
def Reconstruct {V T B : Type} (E : EngineMath V T B) (StaticMesh : UStaticMesh B) (Pivot : V)
    (MergingComponents : List (UPrimitiveComponent T B)) : Except Fault (FGigaBatchMap B) :=
  match accumulateComponents E Pivot 0 MergingComponents [] (collectSections StaticMesh) with
  | .error e => .error e
  | .ok (SubBounds, Resources) =>
    emitLODs StaticMesh SubBounds Resources StaticMesh.GetNumLODs 0 []

/-- The function `FGigaMergeTool::MergeComponents`: the merge utilities are called only for a
nonempty component list whose first component has a world. `Merge` is
`MergeComponentsToStaticMesh` (both branches of line 237 make the same call), giving the
assets it adds to `OutAssets` and `OutPivot`; `Pivot0` is the indeterminate initial value of
the local `Pivot`. -/
def MergeComponents {V T B : Type}
    (Merge : List (UPrimitiveComponent T B) → List (UObject B) × V) (Pivot0 : V)
    (Components : List (UPrimitiveComponent T B)) : Except Fault (List (UObject B) × V) :=
  match Components with
  | [] => .ok ([], Pivot0)
  | Component :: _ =>
    if Component.HasWorld then .ok (Merge Components) else .error .WorldCheck

/-- The function `FGigaMergeTool::RunMerge`: the returned `bool` and the batch map saved into
the new `GigaMesh`. `DuplicateGigaMesh`, the asset registry and the content browser are engine
calls around the reconstruction; they are taken to succeed and leave no trace here. -/
def RunMerge {V T B : Type} (E : EngineMath V T B)
    (Merge : List (UPrimitiveComponent T B) → List (UObject B) × V) (Pivot0 : V)
    (MergingComponents : List (UPrimitiveComponent T B)) : Except Fault (Bool × FGigaBatchMap B) :=
  match MergeComponents Merge Pivot0 MergingComponents with
  | .error e => .error e
  | .ok (Assets, Pivot) =>
    match Assets with
    | [Asset] =>
      match Asset with
      | .StaticMesh StaticMesh =>
        match Reconstruct E StaticMesh Pivot MergingComponents with
        | .error e => .error e
        | .ok Map => .ok (true, Map)
      | .Other => .error .CastCheck
    | _ => .error .AssetsCheck

/-! ## Closed forms of the passes, used to state and prove the properties -/

/-- What the loop body of lines 133-143 does to an accumulator when neither material is null. -/
def appendRecord (ComponentIndex : Int) (Material : Option UMaterialInterface) (NumTriangles : Nat)
    (Info : FMeshSectionInfo) : FMeshSectionInfo :=
  if Material.map (fun M => M.Name) = Info.Material.map (fun M => M.Name) then
    { Info with
      ComponentIndex := Info.ComponentIndex ++ [ComponentIndex]
      NumTriangles := Info.NumTriangles ++ [NumTriangles]
      NumElements := Info.NumElements + 1 }
  else
    { Info with
      ComponentIndex := Info.ComponentIndex ++ [INDEX_NONE]
      NumTriangles := Info.NumTriangles ++ [0]
      NumElements := Info.NumElements + 1 }

/-- The loop over `Resources[LODIndex]` dereferences no null material. -/
def infosOk (Material : Option UMaterialInterface) (Infos : List FMeshSectionInfo) : Prop :=
  Infos = [] ∨ (Material ≠ none ∧ ∀ Info ∈ Infos, Info.Material ≠ none)

/-- One execution of the body of the section loop (lines 129-144): the component index, the
LOD index, the effective material of the source section and its triangle count. -/
structure Visit where
  ComponentIndex : Int
  LODIndex : Nat
  Material : Option UMaterialInterface
  NumTriangles : Nat

/-- The materials of the accumulators; the second pass never changes them. -/
def frame (Resources : List (List FMeshSectionInfo)) : List (List (Option UMaterialInterface)) :=
  Resources.map (List.map fun Info => Info.Material)

/-- The visit meets no fault: `Resources[LODIndex]` is in range and no null material is
dereferenced. -/
def Visit.Ok (v : Visit) (Resources : List (List FMeshSectionInfo)) : Prop :=
  ∃ Infos, Resources[v.LODIndex]? = some Infos ∧ infosOk v.Material Infos

/-- The accumulators after a visit that meets no fault. -/
def Visit.apply (v : Visit) (Resources : List (List FMeshSectionInfo)) :
    List (List FMeshSectionInfo) :=
  match Resources[v.LODIndex]? with
  | none => Resources
  | some Infos =>
    Resources.set v.LODIndex (Infos.map (appendRecord v.ComponentIndex v.Material v.NumTriangles))

/-- The accumulators after a sequence of visits. -/
def applyVisits (vs : List Visit) (Resources : List (List FMeshSectionInfo)) :
    List (List FMeshSectionInfo) :=
  vs.foldl (fun R v => v.apply R) Resources

/-- The visit of a source section. -/
def mkVisit {T B : Type} (ComponentIndex : Int) (MeshComponent : UStaticMeshComponent T B)
    (LODIndex : Nat) (Section : FStaticMeshSection) : Visit :=
  ⟨ComponentIndex, LODIndex, MeshComponent.GetMaterial Section.MaterialIndex, Section.NumTriangles⟩

/-- The visits of the LOD loop of one source mesh, in execution order. -/
def lodVisits {T B : Type} (ComponentIndex : Int) (MeshComponent : UStaticMeshComponent T B) :
    Nat → List (List FStaticMeshSection) → List Visit
  | _, [] => []
  | LODIndex, Sections :: Rest =>
    Sections.map (mkVisit ComponentIndex MeshComponent LODIndex) ++
      lodVisits ComponentIndex MeshComponent (LODIndex + 1) Rest

/-- The visits of one component: none when the cast fails. -/
def componentVisits {T B : Type} (ComponentIndex : Nat) (Component : UPrimitiveComponent T B) :
    List Visit :=
  match Component.AsStaticMeshComponent with
  | none => []
  | some MeshComponent =>
    match MeshComponent.StaticMesh with
    | none => []
    | some Mesh => lodVisits (ComponentIndex : Int) MeshComponent 0 Mesh.LODResources

/-- The visits of the component loop, in execution order. -/
def allVisits {T B : Type} : Nat → List (UPrimitiveComponent T B) → List Visit
  | _, [] => []
  | ComponentIndex, Component :: Rest =>
    componentVisits ComponentIndex Component ++ allVisits (ComponentIndex + 1) Rest

/-- The bounds a component adds to `SubBounds`: none when the cast fails. -/
def componentBounds {V T B : Type} (E : EngineMath V T B) (Pivot : V)
    (Component : UPrimitiveComponent T B) : List B :=
  match Component.AsStaticMeshComponent with
  | none => []
  | some MeshComponent =>
    match MeshComponent.StaticMesh with
    | none => []
    | some Mesh => [pivotBounds E Pivot MeshComponent Mesh]

/-- The array `SubBounds` after the component loop. -/
def allBounds {V T B : Type} (E : EngineMath V T B) (Pivot : V)
    (Components : List (UPrimitiveComponent T B)) : List B :=
  (Components.map (componentBounds E Pivot)).flatten

/-- Every static-mesh component has a mesh (`GetStaticMesh()` is not null). -/
def meshesOk {T B : Type} (Components : List (UPrimitiveComponent T B)) : Prop :=
  ∀ C ∈ Components, ∀ MC, C.AsStaticMeshComponent = some MC → MC.StaticMesh ≠ none

/-- A source mesh has more LODs than there are accumulator rows. -/
def excessLOD {T B : Type} (Cs : List (UPrimitiveComponent T B)) (NumMergedLODs : Nat) : Prop :=
  ∃ C ∈ Cs, ∃ MC Mesh, C.AsStaticMeshComponent = some MC ∧ MC.StaticMesh = some Mesh ∧
    NumMergedLODs < Mesh.LODResources.length

/-- The contribution records of an accumulator: `ComponentIndex` and `NumTriangles` side by
side. -/
def FMeshSectionInfo.records (Info : FMeshSectionInfo) : List (Int × Nat) :=
  Info.ComponentIndex.zip Info.NumTriangles

/-- The counter `NumElements` is the length of both arrays of the accumulator. -/
def FMeshSectionInfo.Wf (Info : FMeshSectionInfo) : Prop :=
  Info.ComponentIndex.length = Info.NumElements ∧ Info.NumTriangles.length = Info.NumElements

/-- Every record that is not the null record has its bounds in `SubBounds`. -/
def lookupsOk {B : Type} (SubBounds : List B) (recs : List (Int × Nat)) : Prop :=
  ∀ r ∈ recs, r.1 ≠ INDEX_NONE → lookupBounds SubBounds r.1 ≠ none

/-- The bounds and triangle count of a record, when it is not the null record and its
component index is in the range of `SubBounds`. -/
def resolveRecord {B : Type} (SubBounds : List B) (r : Int × Nat) : Option (B × Nat) :=
  if r.1 = INDEX_NONE then none else (lookupBounds SubBounds r.1).map fun Bounds => (Bounds, r.2)

/-- The real contributions among the records, each with the bounds found for its component
index. -/
def resolved {B : Type} (SubBounds : List B) (recs : List (Int × Nat)) : List (B × Nat) :=
  recs.filterMap (resolveRecord SubBounds)

/-- The elements emitted for a list of contributions, starting at `FirstIndex`. -/
def pack {B : Type} : List (B × Nat) → Nat → List (FGigaBatchElement B)
  | [], _ => []
  | c :: rest, FirstIndex =>
    ⟨c.1, FirstIndex, c.2⟩ :: pack rest ((FirstIndex + c.2) % 2 ^ 32)

/-- The value of `FirstIndex` after a list of contributions. -/
def advance {B : Type} : List (B × Nat) → Nat → Nat
  | [], FirstIndex => FirstIndex
  | c :: rest, FirstIndex => advance rest ((FirstIndex + c.2) % 2 ^ 32)

/-- The batches saved for the sections of one LOD, from `SectionIndex` on. -/
def packSections {B : Type} (LODIndex : Nat) :
    Nat → List (List (B × Nat)) → Nat → List (FSavedBatch B)
  | _, [], _ => []
  | SectionIndex, cs :: rest, FirstIndex =>
    ⟨LODIndex, SectionIndex, ⟨pack cs FirstIndex⟩⟩ ::
      packSections LODIndex (SectionIndex + 1) rest (advance cs FirstIndex)

/-- The batches saved for the LODs from `LODIndex` on. -/
def packLODs {B : Type} : Nat → List (List (List (B × Nat))) → List (FSavedBatch B)
  | _, [] => []
  | LODIndex, row :: rest => packSections LODIndex 0 row 0 ++ packLODs (LODIndex + 1) rest

/-- The record a visit appends to an accumulator whose material is `M`: the component index
and triangle count when the names are equal, the null record otherwise. -/
def recordOf (M : Option UMaterialInterface) (v : Visit) : Int × Nat :=
  if v.Material.map (fun X => X.Name) = M.map (fun X => X.Name) then
    (v.ComponentIndex, v.NumTriangles)
  else (INDEX_NONE, 0)

/-- An accumulator after a sequence of visits of its LOD. -/
def appendRecords (vs : List Visit) (Info : FMeshSectionInfo) : FMeshSectionInfo :=
  vs.foldl (fun I v => appendRecord v.ComponentIndex v.Material v.NumTriangles I) Info

/-- The records of the accumulator of a merged section with material `M` at LOD `L` after
the visits `vs`: one record per visit of that LOD, in execution order. -/
def recordsAt (M : Option UMaterialInterface) (L : Nat) (vs : List Visit) : List (Int × Nat) :=
  (vs.filter fun v => v.LODIndex = L).map (recordOf M)

/-- The real contributions of every merged section, by LOD and section. -/
def rows {B : Type} (SubBounds : List B) (StaticMesh : UStaticMesh B) (vs : List Visit) :
    List (List (List (B × Nat))) :=
  StaticMesh.LODResources.mapIdx fun L Sections =>
    Sections.map fun Section =>
      resolved SubBounds (recordsAt (StaticMesh.GetMaterial Section.MaterialIndex) L vs)

/-- The accumulator the first pass creates for a merged section. -/
def initialInfo {B : Type} (StaticMesh : UStaticMesh B) (Section : FStaticMeshSection) :
    FMeshSectionInfo :=
  { Material := StaticMesh.GetMaterial Section.MaterialIndex
    ComponentIndex := []
    NumTriangles := []
    NumElements := 0
    TotalNumTriangles := toInt32 Section.NumTriangles }

/-- The elements of the batches saved for sections `0 .. n-1` of LOD `L`, concatenated in
section order. -/
def elementsBefore {B : Type} (Map : FGigaBatchMap B) (L n : Nat) : List (FGigaBatchElement B) :=
  ((List.range n).map fun j => ((savedAt Map L j).map fun Bt => Bt.Elements).flatten).flatten

/-- The test of line 133 on two possibly null materials: equal names. In a run that completes
both are non-null whenever the test is made. -/
def sameName (M N : Option UMaterialInterface) : Bool :=
  decide (M.map (fun X => X.Name) = N.map (fun X => X.Name))

/-- The sections of a source at LOD `L`, in section order, each as its effective material
(the component's material for the section's slot) and its triangle count. Empty when the
component is no static-mesh component, has no mesh, or its mesh has no sections at `L`. -/
def sourceSections {T B : Type} (L : Nat) (C : UPrimitiveComponent T B) :
    List (Option UMaterialInterface × Nat) :=
  match C.AsStaticMeshComponent with
  | none => []
  | some MC =>
    match MC.StaticMesh with
    | none => []
    | some Mesh =>
      (Mesh.LODResources.getD L []).map fun S => (MC.GetMaterial S.MaterialIndex, S.NumTriangles)

/-- The triangle counts of the sections of a source at LOD `L` whose effective material has
the name of `M`, in section order. -/
def matchingCounts {T B : Type} (M : Option UMaterialInterface) (L : Nat)
    (C : UPrimitiveComponent T B) : List Nat :=
  ((sourceSections L C).filter fun x => sameName x.1 M).map fun x => x.2

/-- The pivot-relative bounds computed for a component (lines 116-119), when it is a
static-mesh component with a mesh. -/
def boundsOf {V T B : Type} (E : EngineMath V T B) (Pivot : V) (C : UPrimitiveComponent T B) :
    Option B :=
  match C.AsStaticMeshComponent with
  | none => none
  | some MC =>
    match MC.StaticMesh with
    | none => none
    | some Mesh => some (pivotBounds E Pivot MC Mesh)

/-- The contributions of a source to the merged section with material `M` at LOD `L`: its
own pivot-relative bounds with each matching triangle count. -/
def contributions {V T B : Type} (E : EngineMath V T B) (Pivot : V)
    (M : Option UMaterialInterface) (L : Nat) (C : UPrimitiveComponent T B) : List (B × Nat) :=
  match boundsOf E Pivot C with
  | none => []
  | some Bounds => (matchingCounts M L C).map fun n => (Bounds, n)

/-- The real contributions to the merged section `Section` of LOD `L`, in emission order:
the bounds found in `SubBounds` and the triangle count of every record that is not null. -/
def sectionContribs {V T B : Type} (E : EngineMath V T B) (StaticMesh : UStaticMesh B) (Pivot : V)
    (Cs : List (UPrimitiveComponent T B)) (L : Nat) (Section : FStaticMeshSection) :
    List (B × Nat) :=
  resolved (allBounds E Pivot Cs)
    (recordsAt (StaticMesh.GetMaterial Section.MaterialIndex) L (allVisits 0 Cs))

/-- Every selected component is a static-mesh component. -/
def allStatic {T B : Type} (Cs : List (UPrimitiveComponent T B)) : Prop :=
  ∀ C ∈ Cs, C.AsStaticMeshComponent ≠ none

/-- No source mesh has more LODs than the merged mesh. -/
def lodsWithin {T B : Type} (StaticMesh : UStaticMesh B) (Cs : List (UPrimitiveComponent T B)) :
    Prop :=
  ∀ C ∈ Cs, ∀ MC Mesh, C.AsStaticMeshComponent = some MC → MC.StaticMesh = some Mesh →
    Mesh.GetNumLODs ≤ StaticMesh.GetNumLODs

/-- No material the second pass looks up is null: the material of every merged section and
the effective material of every source section. -/
def materialsSet {T B : Type} (StaticMesh : UStaticMesh B) (Cs : List (UPrimitiveComponent T B)) :
    Prop :=
  (∀ Secs ∈ StaticMesh.LODResources, ∀ S ∈ Secs, StaticMesh.GetMaterial S.MaterialIndex ≠ none) ∧
  ∀ C ∈ Cs, ∀ MC Mesh, C.AsStaticMeshComponent = some MC → MC.StaticMesh = some Mesh →
    ∀ Secs ∈ Mesh.LODResources, ∀ S ∈ Secs, MC.GetMaterial S.MaterialIndex ≠ none

/-- A static-mesh component with the LODs of its mesh replaced. -/
def withLODs {T B : Type} (C : UPrimitiveComponent T B) (MC : UStaticMeshComponent T B)
    (Mesh : UStaticMesh B) (LODs : List (List FStaticMeshSection)) : UPrimitiveComponent T B :=
  { C with
    AsStaticMeshComponent := some
      { MC with StaticMesh := some { Mesh with LODResources := LODs } } }


/-! ## Concrete scenes used to evaluate the definitions -/

/-- Engine arithmetic of a scene whose vectors, transforms and bounds are integers on a
line: a transform is a translation, bounds are a centre. -/
def lineMath : EngineMath Int Int Int where
  Translation := fun p => p
  GetRelativeTransform := fun a o => a - o
  TransformBy := fun b t => b + t

/-- A mesh all of whose slots hold the material named `name`. -/
def meshOf (name : Nat) (LODs : List (List FStaticMeshSection)) : UStaticMesh Int :=
  { LODResources := LODs, GetMaterial := fun _ => some ⟨name⟩, Bounds := 0 }

/-- A merged mesh whose slot `i` holds the material named `i`. -/
def mergedOf (LODs : List (List FStaticMeshSection)) : UStaticMesh Int :=
  { LODResources := LODs, GetMaterial := fun i => some ⟨i.toNat⟩, Bounds := 0 }

/-- A static-mesh component at position `at_` using the material named `name` in all slots. -/
def sourceOf (at_ : Int) (name : Nat) (LODs : List (List FStaticMeshSection)) :
    UPrimitiveComponent Int Int :=
  { HasWorld := true
    AsStaticMeshComponent := some
      { StaticMesh := some (meshOf name LODs)
        ComponentTransform := at_
        GetMaterial := fun _ => some ⟨name⟩ } }

/-- A selected component that is not a static-mesh component. -/
def otherComponent : UPrimitiveComponent Int Int :=
  { HasWorld := true, AsStaticMeshComponent := none }

/-- Scenario A: two cubes of 1000 triangles with the same material at `-5` and `5`, pivot at
the midpoint, merged into one section of 2000 triangles. -/
def sceneA_merged : UStaticMesh Int := mergedOf [[⟨7, 2000⟩]]

/-- The sources of scenario A. -/
def sceneA_sources : List (UPrimitiveComponent Int Int) :=
  [sourceOf (-5) 7 [[⟨0, 1000⟩]], sourceOf 5 7 [[⟨0, 1000⟩]]]

/-- The batch map of scenario A. -/
def sceneA_map : FGigaBatchMap Int :=
  [⟨0, 0, ⟨[⟨-5, 0, 1000⟩, ⟨5, 1000, 1000⟩]⟩⟩]

/-- Scenario B: three sources with the materials 1, 1, 2, merged into one LOD with a section
for material 1 (2000 triangles) and a section for material 2 (500 triangles). -/
def sceneB_merged : UStaticMesh Int := mergedOf [[⟨1, 2000⟩, ⟨2, 500⟩]]

/-- The sources of scenario B: 1200 and 800 triangles of material 1, 500 of material 2. -/
def sceneB_sources : List (UPrimitiveComponent Int Int) :=
  [sourceOf (-5) 1 [[⟨0, 1200⟩]], sourceOf 5 1 [[⟨0, 800⟩]], sourceOf 9 2 [[⟨0, 500⟩]]]

/-- The batch map of scenario B. -/
def sceneB_map : FGigaBatchMap Int :=
  [⟨0, 0, ⟨[⟨-5, 0, 1200⟩, ⟨5, 1200, 800⟩]⟩⟩, ⟨0, 1, ⟨[⟨9, 2000, 500⟩]⟩⟩]

/-- Scenario B with its first two sources exchanged. -/
def sceneB_permuted : List (UPrimitiveComponent Int Int) :=
  [sourceOf 5 1 [[⟨0, 800⟩]], sourceOf (-5) 1 [[⟨0, 1200⟩]], sourceOf 9 2 [[⟨0, 500⟩]]]

/-- The batch map of scenario B with its first two sources exchanged. -/
def sceneB_permuted_map : FGigaBatchMap Int :=
  [⟨0, 0, ⟨[⟨5, 0, 800⟩, ⟨-5, 800, 1200⟩]⟩⟩, ⟨0, 1, ⟨[⟨9, 2000, 500⟩]⟩⟩]

/-- A merged LOD with two sections, of material 1 and of material 2, whose triangle counts
add up beyond `2 ^ 32`. -/
def sceneW_merged : UStaticMesh Int := mergedOf [[⟨1, 2147483649⟩, ⟨2, 2147483649⟩]]

/-- The sources of `sceneW_merged`: one of material 1 and two of material 2. -/
def sceneW_sources : List (UPrimitiveComponent Int Int) :=
  [sourceOf (-5) 1 [[⟨0, 2147483649⟩]], sourceOf 5 2 [[⟨0, 2147483648⟩]],
    sourceOf 9 2 [[⟨0, 1⟩]]]

/-- The batch map of `sceneW_sources` over `sceneW_merged`. -/
def sceneW_map : FGigaBatchMap Int :=
  [⟨0, 0, ⟨[⟨-5, 0, 2147483649⟩]⟩⟩,
    ⟨0, 1, ⟨[⟨5, 2147483649, 2147483648⟩, ⟨9, 1, 1⟩]⟩⟩]

/-- A merged mesh with one LOD and one section of material 1. -/
def sceneL_merged : UStaticMesh Int := mergedOf [[⟨1, 1000⟩]]

/-- One source whose mesh has two LODs. -/
def sceneL_sources : List (UPrimitiveComponent Int Int) :=
  [sourceOf 0 1 [[⟨0, 1000⟩], [⟨0, 500⟩]]]

/-- Merge utilities that return the given mesh as the only asset and the pivot 0. -/
def mergeTo (StaticMesh : UStaticMesh Int) (_ : List (UPrimitiveComponent Int Int)) :
    List (UObject Int) × Int :=
  ([UObject.StaticMesh StaticMesh], 0)

/-- Merge utilities that return `sceneL_merged` as the only asset and the pivot 0. -/
def sceneL_merge : List (UPrimitiveComponent Int Int) → List (UObject Int) × Int :=
  mergeTo sceneL_merged

/-- A selection whose first component is no static-mesh component; the second has material
1 and 1000 triangles, the third has a mesh whose only LOD has no sections. -/
def sceneM_sources : List (UPrimitiveComponent Int Int) :=
  [otherComponent, sourceOf (-5) 1 [[⟨0, 1000⟩]], sourceOf 5 1 [[]]]

/-- A selection whose first component is no static-mesh component; the second has material
1 and 1000 triangles, the third has material 2, which is not in the merged mesh. -/
def sceneN_sources : List (UPrimitiveComponent Int Int) :=
  [otherComponent, sourceOf (-5) 1 [[⟨0, 1000⟩]], sourceOf 5 2 [[⟨0, 1000⟩]]]

/-- A selection of a component that is no static-mesh component followed by a static-mesh
component. -/
def sceneO_sources : List (UPrimitiveComponent Int Int) :=
  [otherComponent, sourceOf (-5) 1 [[⟨0, 1000⟩]]]

/-- Scenario C: a merged mesh with two LODs of one section each. -/
def sceneC_merged : UStaticMesh Int := mergedOf [[⟨1, 2400⟩], [⟨1, 350⟩]]

/-- The source of scenario C whose mesh has no LOD 1. -/
def sceneC_missing : UPrimitiveComponent Int Int := sourceOf 5 1 [[⟨0, 1000⟩]]

/-- The source of scenario C before the one that misses LOD 1. -/
def sceneC_before : List (UPrimitiveComponent Int Int) :=
  [sourceOf (-5) 1 [[⟨0, 1000⟩], [⟨0, 250⟩]]]

/-- The source of scenario C after the one that misses LOD 1. -/
def sceneC_after : List (UPrimitiveComponent Int Int) :=
  [sourceOf 9 1 [[⟨0, 400⟩], [⟨0, 100⟩]]]

/-- The batch map of scenario C. -/
def sceneC_map : FGigaBatchMap Int :=
  [⟨0, 0, ⟨[⟨-5, 0, 1000⟩, ⟨5, 1000, 1000⟩, ⟨9, 2000, 400⟩]⟩⟩,
    ⟨1, 0, ⟨[⟨-5, 0, 250⟩, ⟨9, 250, 100⟩]⟩⟩]

/-- The batch map of scenario C without the source that misses LOD 1. -/
def sceneC_map_rest : FGigaBatchMap Int :=
  [⟨0, 0, ⟨[⟨-5, 0, 1000⟩, ⟨9, 1000, 400⟩]⟩⟩, ⟨1, 0, ⟨[⟨-5, 0, 250⟩, ⟨9, 250, 100⟩]⟩⟩]

/-- A source of material 1 followed by a source whose only section has material 2, which
the merged mesh `sceneL_merged` does not have. -/
def sceneD_sources : List (UPrimitiveComponent Int Int) :=
  [sourceOf (-5) 1 [[⟨0, 1000⟩]], sourceOf 5 2 [[⟨0, 300⟩]]]

/-- The batch map of `sceneD_sources` over `sceneL_merged`. -/
def sceneD_map : FGigaBatchMap Int := [⟨0, 0, ⟨[⟨-5, 0, 1000⟩]⟩⟩]

/-- A source of material 1 whose mesh has an empty LOD 0 and a second LOD with a section. -/
def sceneX_missing : UPrimitiveComponent Int Int := sourceOf 5 1 [[], [⟨0, 500⟩]]

/-- The source of material 1 and 1000 triangles selected before `sceneX_missing`. -/
def sceneX_before : List (UPrimitiveComponent Int Int) := [sourceOf (-5) 1 [[⟨0, 1000⟩]]]

/-- A selection that starts with a component that is no static-mesh component, followed by a
source of material 1 and 1000 triangles. -/
def sceneY_before : List (UPrimitiveComponent Int Int) :=
  [otherComponent, sourceOf (-5) 1 [[⟨0, 1000⟩]]]

/-- A source whose only LOD has no sections. -/
def sceneY_missing : UPrimitiveComponent Int Int := sourceOf 5 1 [[]]

/-- A further source whose only LOD has no sections, selected last. -/
def sceneY_after : List (UPrimitiveComponent Int Int) := [sourceOf 9 1 [[]]]

/-! ## The passes computed in closed form -/

theorem accumulateInfo_eq_ok_iff (ci : Int) (M : Option UMaterialInterface) (n : Nat)
    (Info I : FMeshSectionInfo) :
    accumulateInfo ci M n Info = .ok I ↔
      M ≠ none ∧ Info.Material ≠ none ∧ I = appendRecord ci M n Info := by
  unfold accumulateInfo appendRecord
  cases M with
  | none => simp [GetName]
  | some m =>
    cases hI : Info.Material with
    | none => simp [GetName]
    | some m' =>
      simp only [GetName, Option.map_some', Option.some.injEq]
      by_cases h : m.Name = m'.Name
      · simp [h, eq_comm]
      · simp [h, eq_comm]

theorem accumulateInfo_error (ci : Int) (M : Option UMaterialInterface) (n : Nat)
    (Info : FMeshSectionInfo) (e : Fault) (h : accumulateInfo ci M n Info = .error e) :
    e = .NullDeref := by
  unfold accumulateInfo at h
  cases M with
  | none => simp [GetName] at h; exact h.symm
  | some m =>
    cases hI : Info.Material with
    | none => simp [GetName, hI] at h; exact h.symm
    | some m' =>
      simp only [GetName, hI] at h
      split at h <;> simp at h

theorem accumulateInfos_eq_ok_iff (ci : Int) (M : Option UMaterialInterface) (n : Nat)
    (Infos Infos1 : List FMeshSectionInfo) :
    accumulateInfos ci M n Infos = .ok Infos1 ↔
      infosOk M Infos ∧ Infos1 = Infos.map (appendRecord ci M n) := by
  induction Infos generalizing Infos1 with
  | nil => simp [accumulateInfos, infosOk, eq_comm]
  | cons Info Rest ih =>
    unfold accumulateInfos
    cases h1 : accumulateInfo ci M n Info with
    | error e =>
      refine ⟨fun h => (by cases h), ?_⟩
      rintro ⟨h | ⟨hM, hall⟩, _⟩
      · simp at h
      · have := (accumulateInfo_eq_ok_iff ci M n Info (appendRecord ci M n Info)).2
          ⟨hM, hall Info (by simp), rfl⟩
        simp [h1] at this
    | ok I1 =>
      obtain ⟨hM, hIM, rfl⟩ := (accumulateInfo_eq_ok_iff ci M n Info I1).1 h1
      cases h2 : accumulateInfos ci M n Rest with
      | error e =>
        refine ⟨fun h => (by cases h), ?_⟩
        rintro ⟨h | ⟨_, hall⟩, _⟩
        · simp at h
        · have := (ih (Rest.map (appendRecord ci M n))).2
            ⟨Or.inr ⟨hM, fun I hI => hall I (by simp [hI])⟩, rfl⟩
          simp [h2] at this
      | ok R1 =>
        obtain ⟨_, rfl⟩ := (ih R1).1 h2
        simp only [Except.ok.injEq, List.map_cons, infosOk]
        constructor
        · rintro rfl
          refine ⟨Or.inr ⟨hM, ?_⟩, rfl⟩
          intro I hI
          rcases List.mem_cons.1 hI with rfl | hI
          · exact hIM
          · rcases (ih _).1 h2 with ⟨h | ⟨_, hall⟩, _⟩
            · simp [h] at hI
            · exact hall I hI
        · rintro ⟨_, rfl⟩; rfl

theorem accumulateInfos_error (ci : Int) (M : Option UMaterialInterface) (n : Nat)
    (Infos : List FMeshSectionInfo) (e : Fault) (h : accumulateInfos ci M n Infos = .error e) :
    e = .NullDeref := by
  induction Infos with
  | nil => simp [accumulateInfos] at h
  | cons Info Rest ih =>
    unfold accumulateInfos at h
    cases h1 : accumulateInfo ci M n Info with
    | error e1 =>
      simp only [h1, Except.error.injEq] at h
      subst h
      exact accumulateInfo_error ci M n Info _ h1
    | ok I1 =>
      simp only [h1] at h
      cases h2 : accumulateInfos ci M n Rest with
      | error e2 =>
        simp only [h2, Except.error.injEq] at h
        subst h
        exact ih h2
      | ok R1 => simp [h2] at h

theorem frame_apply (v : Visit) (R : List (List FMeshSectionInfo)) :
    frame (v.apply R) = frame R := by
  unfold Visit.apply
  cases h : R[v.LODIndex]? with
  | none => rfl
  | some Infos =>
    simp only [frame]
    apply List.ext_getElem?
    intro i
    by_cases hi : i = v.LODIndex
    · subst hi
      have hlt : v.LODIndex < R.length := by
        rcases List.getElem?_eq_some.1 h with ⟨hlt, _⟩
        exact hlt
      simp only [List.getElem?_map, List.getElem?_set_self hlt, h, Option.map_some', List.map_map]
      congr 1
      apply List.map_congr_left
      intro I _
      simp only [Function.comp, appendRecord]
      split <;> rfl
    · simp only [List.getElem?_map]
      rw [List.getElem?_set_ne (Ne.symm hi)]

theorem frame_applyVisits (vs : List Visit) (R : List (List FMeshSectionInfo)) :
    frame (applyVisits vs R) = frame R := by
  induction vs generalizing R with
  | nil => rfl
  | cons v vs ih =>
    simp only [applyVisits, List.foldl_cons]
    exact (ih (v.apply R)).trans (frame_apply v R)

theorem Visit.Ok_of_frame (v : Visit) (R R1 : List (List FMeshSectionInfo))
    (hf : frame R = frame R1) (h : v.Ok R) : v.Ok R1 := by
  obtain ⟨Infos, hI, hok⟩ := h
  have h1 : (frame R)[v.LODIndex]? = some (Infos.map fun I => I.Material) := by
    simp [frame, List.getElem?_map, hI]
  rw [hf] at h1
  simp only [frame, List.getElem?_map, Option.map_eq_some'] at h1
  obtain ⟨Infos1, hI1, hm⟩ := h1
  refine ⟨Infos1, hI1, ?_⟩
  rcases hok with rfl | ⟨hM, hall⟩
  · left
    simpa using hm
  · right
    refine ⟨hM, ?_⟩
    intro I hI
    have : I.Material ∈ Infos1.map fun I => I.Material := List.mem_map_of_mem _ hI
    rw [hm] at this
    obtain ⟨J, hJ, hJI⟩ := List.mem_map.1 this
    rw [← hJI]
    exact hall J hJ

theorem Visit.Ok_apply_iff (v w : Visit) (R : List (List FMeshSectionInfo)) :
    v.Ok (w.apply R) ↔ v.Ok R :=
  ⟨Visit.Ok_of_frame v _ _ (frame_apply w R), Visit.Ok_of_frame v _ _ (frame_apply w R).symm⟩

theorem Visit.Ok_applyVisits_iff (v : Visit) (ws : List Visit) (R : List (List FMeshSectionInfo)) :
    v.Ok (applyVisits ws R) ↔ v.Ok R :=
  ⟨Visit.Ok_of_frame v _ _ (frame_applyVisits ws R),
    Visit.Ok_of_frame v _ _ (frame_applyVisits ws R).symm⟩

theorem length_apply (v : Visit) (R : List (List FMeshSectionInfo)) :
    (v.apply R).length = R.length := by
  have := congrArg List.length (frame_apply v R)
  simpa [frame] using this

theorem length_applyVisits (vs : List Visit) (R : List (List FMeshSectionInfo)) :
    (applyVisits vs R).length = R.length := by
  have := congrArg List.length (frame_applyVisits vs R)
  simpa [frame] using this

theorem applyVisits_append (vs ws : List Visit) (R : List (List FMeshSectionInfo)) :
    applyVisits (vs ++ ws) R = applyVisits ws (applyVisits vs R) := by
  simp [applyVisits, List.foldl_append]

theorem accumulateSection_eq_ok_iff {T B : Type} (ci : Int) (mc : UStaticMeshComponent T B)
    (L : Nat) (S : FStaticMeshSection) (R R1 : List (List FMeshSectionInfo)) :
    accumulateSection ci mc L S R = .ok R1 ↔
      (mkVisit ci mc L S).Ok R ∧ R1 = (mkVisit ci mc L S).apply R := by
  unfold accumulateSection Visit.Ok Visit.apply
  simp only [mkVisit]
  cases h : R[L]? with
  | none => simp
  | some Infos =>
    simp only [Option.some.injEq, exists_eq_left']
    cases h2 : accumulateInfos ci (mc.GetMaterial S.MaterialIndex) S.NumTriangles Infos with
    | error e =>
      refine ⟨fun h => (by cases h), ?_⟩
      rintro ⟨hok, _⟩
      have := (accumulateInfos_eq_ok_iff ci _ S.NumTriangles Infos _).2 ⟨hok, rfl⟩
      simp [h2] at this
    | ok Infos1 =>
      obtain ⟨hok, rfl⟩ := (accumulateInfos_eq_ok_iff ci _ _ Infos Infos1).1 h2
      simp only [Except.ok.injEq]
      exact ⟨fun h => ⟨hok, h.symm⟩, fun h => h.2.symm⟩

theorem accumulateSection_error {T B : Type} (ci : Int) (mc : UStaticMeshComponent T B)
    (L : Nat) (S : FStaticMeshSection) (R : List (List FMeshSectionInfo)) (e : Fault)
    (h : accumulateSection ci mc L S R = .error e) :
    e = .NullDeref ∨ (e = .OutOfRange ∧ R.length ≤ L) := by
  unfold accumulateSection at h
  cases h1 : R[L]? with
  | none =>
    simp only [h1, Except.error.injEq] at h
    exact Or.inr ⟨h.symm, List.getElem?_eq_none_iff.1 h1⟩
  | some Infos =>
    simp only [h1] at h
    cases h2 : accumulateInfos ci (mc.GetMaterial S.MaterialIndex) S.NumTriangles Infos with
    | error e2 =>
      simp only [h2, Except.error.injEq] at h
      subst h
      exact Or.inl (accumulateInfos_error _ _ _ _ _ h2)
    | ok Infos1 => simp [h2] at h

theorem accumulateSections_eq_ok_iff {T B : Type} (ci : Int) (mc : UStaticMeshComponent T B)
    (L : Nat) (Ss : List FStaticMeshSection) (R R1 : List (List FMeshSectionInfo)) :
    accumulateSections ci mc L Ss R = .ok R1 ↔
      (∀ v ∈ Ss.map (mkVisit ci mc L), v.Ok R) ∧ R1 = applyVisits (Ss.map (mkVisit ci mc L)) R := by
  induction Ss generalizing R with
  | nil => simp [accumulateSections, applyVisits, eq_comm]
  | cons S Rest ih =>
    unfold accumulateSections
    cases h1 : accumulateSection ci mc L S R with
    | error e =>
      refine ⟨fun h => (by cases h), ?_⟩
      rintro ⟨hok, _⟩
      have := (accumulateSection_eq_ok_iff ci mc L S R _).2 ⟨hok _ (by simp), rfl⟩
      simp [h1] at this
    | ok R2 =>
      obtain ⟨hok, rfl⟩ := (accumulateSection_eq_ok_iff ci mc L S R R2).1 h1
      simp only [ih, List.map_cons, List.mem_cons, forall_eq_or_imp, hok, true_and,
        applyVisits, List.foldl_cons]
      simp only [Visit.Ok_apply_iff]

theorem accumulateSections_error {T B : Type} (ci : Int) (mc : UStaticMeshComponent T B)
    (L : Nat) (Ss : List FStaticMeshSection) (R : List (List FMeshSectionInfo)) (e : Fault)
    (h : accumulateSections ci mc L Ss R = .error e) :
    e = .NullDeref ∨ (e = .OutOfRange ∧ R.length ≤ L) := by
  induction Ss generalizing R with
  | nil => simp [accumulateSections] at h
  | cons S Rest ih =>
    unfold accumulateSections at h
    cases h1 : accumulateSection ci mc L S R with
    | error e1 =>
      simp only [h1, Except.error.injEq] at h
      subst h
      exact accumulateSection_error ci mc L S R _ h1
    | ok R2 =>
      simp only [h1] at h
      obtain ⟨_, rfl⟩ := (accumulateSection_eq_ok_iff ci mc L S R R2).1 h1
      have := ih _ h
      rwa [length_apply] at this

theorem accumulateLODs_eq_ok_iff {T B : Type} (ci : Int) (mc : UStaticMeshComponent T B)
    (L : Nat) (LODs : List (List FStaticMeshSection)) (R R1 : List (List FMeshSectionInfo)) :
    accumulateLODs ci mc L LODs R = .ok R1 ↔
      (∀ v ∈ lodVisits ci mc L LODs, v.Ok R) ∧ R1 = applyVisits (lodVisits ci mc L LODs) R := by
  induction LODs generalizing L R with
  | nil => simp [accumulateLODs, lodVisits, applyVisits, eq_comm]
  | cons Ss Rest ih =>
    unfold accumulateLODs
    cases h1 : accumulateSections ci mc L Ss R with
    | error e =>
      refine ⟨fun h => (by cases h), ?_⟩
      rintro ⟨hok, _⟩
      have := (accumulateSections_eq_ok_iff ci mc L Ss R _).2
        ⟨fun v hv => hok v (by simp only [lodVisits, List.mem_append]; exact Or.inl hv), rfl⟩
      simp [h1] at this
    | ok R2 =>
      obtain ⟨hok, rfl⟩ := (accumulateSections_eq_ok_iff ci mc L Ss R R2).1 h1
      simp only [ih, lodVisits, List.mem_append, applyVisits_append, Visit.Ok_applyVisits_iff]
      constructor
      · rintro ⟨h, rfl⟩
        exact ⟨fun v hv => hv.elim (hok v) (h v), rfl⟩
      · rintro ⟨h, rfl⟩
        exact ⟨fun v hv => h v (Or.inr hv), rfl⟩

theorem accumulateLODs_error {T B : Type} (ci : Int) (mc : UStaticMeshComponent T B)
    (L : Nat) (LODs : List (List FStaticMeshSection)) (R : List (List FMeshSectionInfo))
    (e : Fault) (h : accumulateLODs ci mc L LODs R = .error e) :
    e = .NullDeref ∨ (e = .OutOfRange ∧ R.length < L + LODs.length) := by
  induction LODs generalizing L R with
  | nil => simp [accumulateLODs] at h
  | cons Ss Rest ih =>
    unfold accumulateLODs at h
    cases h1 : accumulateSections ci mc L Ss R with
    | error e1 =>
      simp only [h1, Except.error.injEq] at h
      subst h
      rcases accumulateSections_error ci mc L Ss R _ h1 with h | ⟨h, hl⟩
      · exact Or.inl h
      · exact Or.inr ⟨h, by simp only [List.length_cons]; omega⟩
    | ok R2 =>
      simp only [h1] at h
      obtain ⟨_, rfl⟩ := (accumulateSections_eq_ok_iff ci mc L Ss R R2).1 h1
      rcases ih _ _ h with h | ⟨h, hl⟩
      · exact Or.inl h
      · rw [length_applyVisits] at hl
        exact Or.inr ⟨h, by simp only [List.length_cons]; omega⟩

theorem applyVisits_nil (R : List (List FMeshSectionInfo)) : applyVisits [] R = R := rfl

theorem accumulateComponents_eq_ok_iff {V T B : Type} (E : EngineMath V T B) (Pivot : V)
    (ci : Nat) (Cs : List (UPrimitiveComponent T B)) (SB : List B)
    (R : List (List FMeshSectionInfo)) (out : List B × List (List FMeshSectionInfo)) :
    accumulateComponents E Pivot ci Cs SB R = .ok out ↔
      meshesOk Cs ∧ (∀ v ∈ allVisits ci Cs, v.Ok R) ∧
        out = (SB ++ allBounds E Pivot Cs, applyVisits (allVisits ci Cs) R) := by
  induction Cs generalizing ci SB R with
  | nil => simp [accumulateComponents, allVisits, allBounds, applyVisits, meshesOk, eq_comm]
  | cons C Rest ih =>
    unfold accumulateComponents
    cases hC : C.AsStaticMeshComponent with
    | none =>
      simp only [ih, allVisits, componentVisits, hC, List.nil_append, allBounds, List.map_cons,
        componentBounds, List.flatten_cons, meshesOk, List.mem_cons, forall_eq_or_imp]
      simp
    | some mc =>
      dsimp only
      cases hM : mc.StaticMesh with
      | none =>
        refine ⟨fun h => (by cases h), ?_⟩
        rintro ⟨hmesh, _⟩
        exact absurd hM (hmesh C (by simp) mc hC)
      | some Mesh =>
        dsimp only
        have hmesh : meshesOk (C :: Rest) ↔ meshesOk Rest := by
          simp only [meshesOk, List.mem_cons, forall_eq_or_imp, hC, Option.some.injEq]
          constructor
          · exact fun h => h.2
          · intro h
            refine ⟨?_, h⟩
            rintro MC rfl
            simp [hM]
        cases h1 : accumulateLODs (ci : Int) mc 0 Mesh.LODResources R with
        | error e =>
          refine ⟨fun h => (by cases h), ?_⟩
          rintro ⟨_, hok, _⟩
          have := (accumulateLODs_eq_ok_iff (ci : Int) mc 0 Mesh.LODResources R _).2
            ⟨fun v hv => hok v (by
              simp only [allVisits, componentVisits, hC, hM, List.mem_append]
              exact Or.inl hv), rfl⟩
          simp [h1] at this
        | ok R2 =>
          obtain ⟨hok, rfl⟩ := (accumulateLODs_eq_ok_iff (ci : Int) mc 0 Mesh.LODResources R R2).1 h1
          simp only [ih, hmesh, allVisits, componentVisits, hC, hM, List.mem_append,
            applyVisits_append, Visit.Ok_applyVisits_iff, allBounds, List.map_cons,
            componentBounds, List.flatten_cons, List.append_assoc, List.singleton_append]
          constructor
          · rintro ⟨hm, h, rfl⟩
            exact ⟨hm, fun v hv => hv.elim (hok v) (h v), rfl⟩
          · rintro ⟨hm, h, rfl⟩
            exact ⟨hm, fun v hv => h v (Or.inr hv), rfl⟩

theorem accumulateComponents_error {V T B : Type} (E : EngineMath V T B) (Pivot : V)
    (ci : Nat) (Cs : List (UPrimitiveComponent T B)) (SB : List B)
    (R : List (List FMeshSectionInfo)) (e : Fault)
    (h : accumulateComponents E Pivot ci Cs SB R = .error e) :
    e = .NullDeref ∨ (e = .OutOfRange ∧ excessLOD Cs R.length) := by
  induction Cs generalizing ci SB R with
  | nil => simp [accumulateComponents] at h
  | cons C Rest ih =>
    unfold accumulateComponents at h
    have lift : ∀ R' : List (List FMeshSectionInfo), R'.length = R.length → excessLOD Rest R'.length →
        excessLOD (C :: Rest) R.length := by
      rintro R' hl ⟨C', hC', MC, Mesh, h1, h2, h3⟩
      exact ⟨C', List.mem_cons_of_mem _ hC', MC, Mesh, h1, h2, hl ▸ h3⟩
    cases hC : C.AsStaticMeshComponent with
    | none =>
      simp only [hC] at h
      rcases ih _ _ _ h with h | ⟨h, hx⟩
      · exact Or.inl h
      · exact Or.inr ⟨h, lift R rfl hx⟩
    | some mc =>
      simp only [hC] at h
      cases hM : mc.StaticMesh with
      | none =>
        simp only [hM, Except.error.injEq] at h
        exact Or.inl h.symm
      | some Mesh =>
        simp only [hM] at h
        cases h1 : accumulateLODs (ci : Int) mc 0 Mesh.LODResources R with
        | error e1 =>
          simp only [h1, Except.error.injEq] at h
          subst h
          rcases accumulateLODs_error _ _ _ _ _ _ h1 with h | ⟨h, hl⟩
          · exact Or.inl h
          · exact Or.inr ⟨h, C, by simp, mc, Mesh, hC, hM, by omega⟩
        | ok R2 =>
          simp only [h1] at h
          obtain ⟨_, rfl⟩ := (accumulateLODs_eq_ok_iff _ _ _ _ _ R2).1 h1
          rcases ih _ _ _ h with h | ⟨h, hx⟩
          · exact Or.inl h
          · exact Or.inr ⟨h, lift _ (length_applyVisits _ _) hx⟩

theorem emitElements_eq_ok_iff {B : Type} (SB : List B) (Info : FMeshSectionInfo)
    (hlen : Info.ComponentIndex.length = Info.NumTriangles.length)
    (k i F : Nat) (Els : List (FGigaBatchElement B)) (hk : i + k = Info.ComponentIndex.length)
    (out : Nat × List (FGigaBatchElement B)) :
    emitElements SB Info k i F Els = .ok out ↔
      lookupsOk SB (Info.records.drop i) ∧
        out = (advance (resolved SB (Info.records.drop i)) F,
          Els ++ pack (resolved SB (Info.records.drop i)) F) := by
  induction k generalizing i F Els with
  | zero =>
    have : Info.records.drop i = [] := by
      apply List.drop_eq_nil_of_le
      simp only [FMeshSectionInfo.records, List.length_zip]
      omega
    simp [emitElements, this, lookupsOk, resolved, advance, pack, eq_comm]
  | succ k ih =>
    have hi : i < Info.ComponentIndex.length := by omega
    have hi2 : i < Info.NumTriangles.length := by omega
    have hi3 : i < Info.records.length := by
      simp only [FMeshSectionInfo.records, List.length_zip]
      omega
    have hdrop : Info.records.drop i =
        (Info.ComponentIndex[i], Info.NumTriangles[i]) :: Info.records.drop (i + 1) := by
      rw [List.drop_eq_getElem_cons hi3]
      simp [FMeshSectionInfo.records]
    unfold emitElements
    rw [List.getElem?_eq_getElem hi, List.getElem?_eq_getElem hi2, hdrop]
    dsimp only
    have ih1 := ih (i + 1)
    by_cases hnone : Info.ComponentIndex[i] = INDEX_NONE
    · have hr : resolved SB ((Info.ComponentIndex[i], Info.NumTriangles[i]) ::
          Info.records.drop (i + 1)) = resolved SB (Info.records.drop (i + 1)) := by
        simp [resolved, List.filterMap_cons, resolveRecord, hnone]
      rw [hr, if_pos hnone, ih1 F Els (by omega)]
      simp [lookupsOk, hnone]
    · simp only [hnone, if_false]
      cases hb : lookupBounds SB Info.ComponentIndex[i] with
      | none =>
        refine ⟨fun h => (by cases h), ?_⟩
        rintro ⟨hok, _⟩
        exact absurd hb (hok (Info.ComponentIndex[i], Info.NumTriangles[i]) (List.mem_cons_self _ _) hnone)
      | some Bounds =>
        have hr : resolved SB ((Info.ComponentIndex[i], Info.NumTriangles[i]) ::
            Info.records.drop (i + 1)) =
            (Bounds, Info.NumTriangles[i]) :: resolved SB (Info.records.drop (i + 1)) := by
          simp [resolved, List.filterMap_cons, resolveRecord, hnone, hb]
        dsimp only
        rw [ih1 _ _ (by omega), hr]
        simp only [lookupsOk, List.mem_cons, forall_eq_or_imp, ne_eq, hnone, not_false_eq_true,
          hb, not_false_eq_true, forall_const, true_and, advance, pack, List.append_assoc,
          List.singleton_append, reduceCtorEq]

theorem emitSections_eq_ok_iff {B : Type} (SB : List B) (R : List (List FMeshSectionInfo))
    (L : Nat) (Infos : List FMeshSectionInfo) (hR : R[L]? = some Infos)
    (hwf : ∀ I ∈ Infos, I.Wf) (k s F : Nat) (Map Map1 : FGigaBatchMap B)
    (hk : s + k = Infos.length) :
    emitSections SB R L k s F Map = .ok Map1 ↔
      (∀ I ∈ Infos.drop s, lookupsOk SB I.records) ∧
        Map1 = Map ++ packSections L s ((Infos.drop s).map fun I => resolved SB I.records) F := by
  induction k generalizing s F Map with
  | zero =>
    have : Infos.drop s = [] := List.drop_eq_nil_of_le (by omega)
    simp [emitSections, this, packSections, eq_comm]
  | succ k ih =>
    have hs : s < Infos.length := by omega
    have hdrop : Infos.drop s = Infos[s] :: Infos.drop (s + 1) := List.drop_eq_getElem_cons hs
    have hI := hwf Infos[s] (List.getElem_mem _)
    unfold emitSections
    rw [hR]
    dsimp only
    rw [List.getElem?_eq_getElem hs, hdrop]
    dsimp only
    have he := emitElements_eq_ok_iff SB Infos[s] (hI.1.trans hI.2.symm) Infos[s].NumElements 0 F []
      (by rw [hI.1]; omega)
    simp only [List.drop_zero, List.nil_append] at he
    cases h1 : emitElements SB Infos[s] Infos[s].NumElements 0 F [] with
    | error e =>
      refine ⟨fun h => (by cases h), ?_⟩
      rintro ⟨hok, _⟩
      have := (he _).2 ⟨hok Infos[s] (List.mem_cons_self _ _), rfl⟩
      simp [h1] at this
    | ok out =>
      obtain ⟨hok, rfl⟩ := (he out).1 h1
      dsimp only
      rw [ih _ _ _ (by omega)]
      simp only [List.mem_cons, forall_eq_or_imp, and_iff_right hok, List.map_cons, packSections,
        SaveBatch, List.append_assoc, List.singleton_append]

theorem emitLODs_eq_ok_iff {B : Type} (StaticMesh : UStaticMesh B) (SB : List B)
    (R : List (List FMeshSectionInfo))
    (hshape : ∀ L Infos, R[L]? = some Infos →
      Infos.length = StaticMesh.GetNumSections L ∧ ∀ I ∈ Infos, I.Wf)
    (k L : Nat) (Map Map1 : FGigaBatchMap B) (hk : L + k = R.length) :
    emitLODs StaticMesh SB R k L Map = .ok Map1 ↔
      (∀ Infos ∈ R.drop L, ∀ I ∈ Infos, lookupsOk SB I.records) ∧
        Map1 = Map ++ packLODs L
          ((R.drop L).map fun Infos => Infos.map fun I => resolved SB I.records) := by
  induction k generalizing L Map with
  | zero =>
    have : R.drop L = [] := List.drop_eq_nil_of_le (by omega)
    simp [emitLODs, this, packLODs, eq_comm]
  | succ k ih =>
    have hL : L < R.length := by omega
    have hdrop : R.drop L = R[L] :: R.drop (L + 1) := List.drop_eq_getElem_cons hL
    have hRL : R[L]? = some R[L] := List.getElem?_eq_getElem hL
    obtain ⟨hlen, hwf⟩ := hshape L R[L] hRL
    have hs := emitSections_eq_ok_iff SB R L R[L] hRL hwf (StaticMesh.GetNumSections L) 0 0 Map
    simp only [List.drop_zero] at hs
    unfold emitLODs
    rw [hdrop]
    cases h1 : emitSections SB R L (StaticMesh.GetNumSections L) 0 0 Map with
    | error e =>
      refine ⟨fun h => (by cases h), ?_⟩
      rintro ⟨hok, _⟩
      have := (hs _ (by omega)).2 ⟨hok R[L] (List.mem_cons_self _ _), rfl⟩
      simp [h1] at this
    | ok Map2 =>
      obtain ⟨hok, rfl⟩ := (hs Map2 (by omega)).1 h1
      dsimp only
      rw [ih _ _ (by omega)]
      simp only [List.mem_cons, forall_eq_or_imp, and_iff_right hok, List.map_cons, packLODs,
        List.append_assoc]

theorem getElem?_apply (v : Visit) (R : List (List FMeshSectionInfo)) (L : Nat) :
    (v.apply R)[L]? = (R[L]?).map fun Infos =>
      if v.LODIndex = L then
        Infos.map (appendRecord v.ComponentIndex v.Material v.NumTriangles)
      else Infos := by
  unfold Visit.apply
  cases h : R[v.LODIndex]? with
  | none =>
    by_cases hL : v.LODIndex = L
    · subst hL
      simp [h]
    · simp [hL]
  | some Infos =>
    dsimp only
    by_cases hL : v.LODIndex = L
    · subst hL
      have hlt : v.LODIndex < R.length := (List.getElem?_eq_some.1 h).1
      simp [List.getElem?_set_self hlt, h]
    · rw [List.getElem?_set_ne hL]
      simp [hL]

theorem appendRecords_nil (I : FMeshSectionInfo) : appendRecords [] I = I := rfl

theorem appendRecords_cons (v : Visit) (vs : List Visit) (I : FMeshSectionInfo) :
    appendRecords (v :: vs) I =
      appendRecords vs (appendRecord v.ComponentIndex v.Material v.NumTriangles I) := rfl

theorem getElem?_applyVisits (vs : List Visit) (R : List (List FMeshSectionInfo)) (L : Nat) :
    (applyVisits vs R)[L]? =
      (R[L]?).map (List.map (appendRecords (vs.filter fun v => v.LODIndex = L))) := by
  induction vs generalizing R with
  | nil =>
    simp only [applyVisits, List.foldl_nil, List.filter_nil]
    cases R[L]? with
    | none => rfl
    | some Infos =>
      simp only [Option.map_some', Option.some.injEq]
      have : appendRecords [] = id := funext appendRecords_nil
      rw [this, List.map_id]
  | cons v vs ih =>
    have : applyVisits (v :: vs) R = applyVisits vs (v.apply R) := rfl
    rw [this, ih, getElem?_apply]
    cases R[L]? with
    | none => rfl
    | some Infos =>
      by_cases hL : v.LODIndex = L
      · simp [hL, List.filter_cons, appendRecords_cons, Function.comp_def]
      · simp [hL, List.filter_cons]

theorem appendRecord_fields (ci : Int) (L : Nat) (M : Option UMaterialInterface) (n : Nat)
    (I : FMeshSectionInfo) :
    (appendRecord ci M n I).Material = I.Material ∧
    (appendRecord ci M n I).ComponentIndex =
      I.ComponentIndex ++ [(recordOf I.Material ⟨ci, L, M, n⟩).1] ∧
    (appendRecord ci M n I).NumTriangles =
      I.NumTriangles ++ [(recordOf I.Material ⟨ci, L, M, n⟩).2] ∧
    (appendRecord ci M n I).NumElements = I.NumElements + 1 ∧
    (appendRecord ci M n I).TotalNumTriangles = I.TotalNumTriangles := by
  unfold appendRecord recordOf
  split <;> simp

theorem appendRecords_fields (vs : List Visit) (I : FMeshSectionInfo) :
    (appendRecords vs I).Material = I.Material ∧
    (appendRecords vs I).ComponentIndex =
      I.ComponentIndex ++ vs.map (fun v => (recordOf I.Material v).1) ∧
    (appendRecords vs I).NumTriangles =
      I.NumTriangles ++ vs.map (fun v => (recordOf I.Material v).2) ∧
    (appendRecords vs I).NumElements = I.NumElements + vs.length ∧
    (appendRecords vs I).TotalNumTriangles = I.TotalNumTriangles := by
  induction vs generalizing I with
  | nil => simp [appendRecords_nil]
  | cons v vs ih =>
    obtain ⟨h1, h2, h3, h4, h5⟩ := ih (appendRecord v.ComponentIndex v.Material v.NumTriangles I)
    obtain ⟨g1, g2, g3, g4, g5⟩ :=
      appendRecord_fields v.ComponentIndex v.LODIndex v.Material v.NumTriangles I
    rw [appendRecords_cons]
    refine ⟨h1.trans g1, ?_, ?_, ?_, h5.trans g5⟩
    · rw [h2, g1, g2]; simp
    · rw [h3, g1, g3]; simp
    · rw [h4, g4]; simp only [List.length_cons]; omega

theorem appendRecords_wf (vs : List Visit) (I : FMeshSectionInfo) (h : I.Wf) :
    (appendRecords vs I).Wf := by
  obtain ⟨-, h2, h3, h4, -⟩ := appendRecords_fields vs I
  constructor
  · rw [h2, h4, List.length_append, List.length_map, h.1]
  · rw [h3, h4, List.length_append, List.length_map, h.2]

theorem appendRecords_records (vs : List Visit) (I : FMeshSectionInfo)
    (h1 : I.ComponentIndex = []) (h2 : I.NumTriangles = []) :
    (appendRecords vs I).records = vs.map (recordOf I.Material) := by
  obtain ⟨-, g2, g3, -, -⟩ := appendRecords_fields vs I
  simp only [FMeshSectionInfo.records, g2, g3, h1, h2, List.nil_append, List.zip_map']

theorem collectSections_eq {B : Type} (SM : UStaticMesh B) :
    collectSections SM = SM.LODResources.map (List.map (initialInfo SM)) := rfl

theorem getElem?_final {B : Type} (SM : UStaticMesh B) (vs : List Visit) (L : Nat) :
    (applyVisits vs (collectSections SM))[L]? =
      (SM.LODResources[L]?).map fun Secs => Secs.map fun Sec =>
        appendRecords (vs.filter fun v => v.LODIndex = L) (initialInfo SM Sec) := by
  rw [getElem?_applyVisits, collectSections_eq, List.getElem?_map]
  cases SM.LODResources[L]? with
  | none => rfl
  | some Secs => simp [Function.comp_def]

theorem records_final {B : Type} (SM : UStaticMesh B) (vs : List Visit) (L : Nat)
    (Sec : FStaticMeshSection) :
    (appendRecords (vs.filter fun v => v.LODIndex = L) (initialInfo SM Sec)).records =
      recordsAt (SM.GetMaterial Sec.MaterialIndex) L vs :=
  appendRecords_records _ _ rfl rfl

theorem Reconstruct_eq_ok_iff {V T B : Type} (E : EngineMath V T B) (SM : UStaticMesh B)
    (P : V) (Cs : List (UPrimitiveComponent T B)) (Map : FGigaBatchMap B) :
    Reconstruct E SM P Cs = .ok Map ↔
      meshesOk Cs ∧ (∀ v ∈ allVisits 0 Cs, v.Ok (collectSections SM)) ∧
      (∀ L Secs, SM.LODResources[L]? = some Secs → ∀ Sec ∈ Secs,
        lookupsOk (allBounds E P Cs)
          (recordsAt (SM.GetMaterial Sec.MaterialIndex) L (allVisits 0 Cs))) ∧
      Map = packLODs 0 (rows (allBounds E P Cs) SM (allVisits 0 Cs)) := by
  unfold Reconstruct
  have hacc := accumulateComponents_eq_ok_iff E P 0 Cs [] (collectSections SM)
  cases h : accumulateComponents E P 0 Cs [] (collectSections SM) with
  | error e =>
    refine ⟨fun h => (by cases h), ?_⟩
    rintro ⟨hm, hv, _⟩
    have := (hacc _).2 ⟨hm, hv, rfl⟩
    simp [h] at this
  | ok out =>
    obtain ⟨hm, hv, rfl⟩ := (hacc out).1 h
    dsimp only
    simp only [List.nil_append]
    have hshape : ∀ L Infos, (applyVisits (allVisits 0 Cs) (collectSections SM))[L]? = some Infos →
        Infos.length = SM.GetNumSections L ∧ ∀ I ∈ Infos, I.Wf := by
      intro L Infos hI
      rw [getElem?_final] at hI
      cases hS : SM.LODResources[L]? with
      | none => simp [hS] at hI
      | some Secs =>
        simp only [hS, Option.map_some', Option.some.injEq] at hI
        subst hI
        constructor
        · simp [UStaticMesh.GetNumSections, List.getD_eq_getElem?_getD, hS]
        · intro I hI
          obtain ⟨Sec, _, rfl⟩ := List.mem_map.1 hI
          exact appendRecords_wf _ _ ⟨rfl, rfl⟩
    have hlen : 0 + SM.GetNumLODs = (applyVisits (allVisits 0 Cs) (collectSections SM)).length := by
      simp [length_applyVisits, collectSections_eq, UStaticMesh.GetNumLODs]
    rw [emitLODs_eq_ok_iff SM _ _ hshape _ _ _ _ hlen]
    simp only [List.drop_zero, List.nil_append, hm, hv, implies_true, true_and]
    have hrows : (applyVisits (allVisits 0 Cs) (collectSections SM)).map
        (fun Infos => Infos.map fun I => resolved (allBounds E P Cs) I.records) =
        rows (allBounds E P Cs) SM (allVisits 0 Cs) := by
      apply List.ext_getElem?
      intro L
      rw [List.getElem?_map, getElem?_final, rows, List.getElem?_mapIdx]
      cases SM.LODResources[L]? with
      | none => rfl
      | some Secs => simp [Function.comp_def, records_final]
    rw [hrows, and_iff_right hv]
    apply and_congr_left
    intro _
    constructor
    · intro h L Secs hS Sec hSec
      have h1 := getElem?_final SM (allVisits 0 Cs) L
      rw [hS] at h1
      have h2 := h _ (List.mem_iff_getElem?.2 ⟨L, h1⟩) _ (List.mem_map_of_mem _ hSec)
      rwa [records_final] at h2
    · intro h Infos hInfos I hI
      obtain ⟨L, hL⟩ := List.mem_iff_getElem?.1 hInfos
      rw [getElem?_final] at hL
      cases hS : SM.LODResources[L]? with
      | none => simp [hS] at hL
      | some Secs =>
        simp only [hS, Option.map_some', Option.some.injEq] at hL
        subst hL
        obtain ⟨Sec, hSec, rfl⟩ := List.mem_map.1 hI
        rw [records_final]
        exact h L Secs hS Sec hSec

theorem pack_append {B : Type} (a b : List (B × Nat)) (F : Nat) :
    pack (a ++ b) F = pack a F ++ pack b (advance a F) := by
  induction a generalizing F with
  | nil => rfl
  | cons c rest ih => simp [pack, advance, ih]

theorem advance_append {B : Type} (a b : List (B × Nat)) (F : Nat) :
    advance (a ++ b) F = advance b (advance a F) := by
  induction a generalizing F with
  | nil => rfl
  | cons c rest ih => simp [advance, ih]

theorem pack_map_NumTriangles {B : Type} (cs : List (B × Nat)) (F : Nat) :
    (pack cs F).map (fun e => e.NumTriangles) = cs.map (fun c => c.2) := by
  induction cs generalizing F with
  | nil => rfl
  | cons c rest ih => simp [pack, ih]

theorem pack_map_Bounds {B : Type} (cs : List (B × Nat)) (F : Nat) :
    (pack cs F).map (fun e => e.Bounds) = cs.map (fun c => c.1) := by
  induction cs generalizing F with
  | nil => rfl
  | cons c rest ih => simp [pack, ih]

theorem length_pack {B : Type} (cs : List (B × Nat)) (F : Nat) :
    (pack cs F).length = cs.length := by
  induction cs generalizing F with
  | nil => rfl
  | cons c rest ih => simp [pack, ih]

theorem pack_eq_nil {B : Type} (cs : List (B × Nat)) (F : Nat) : pack cs F = [] ↔ cs = [] := by
  cases cs <;> simp [pack]

theorem advance_mod {B : Type} (cs : List (B × Nat)) (F : Nat) :
    advance cs F % 2 ^ 32 = (F + (cs.map fun c => c.2).sum) % 2 ^ 32 := by
  induction cs generalizing F with
  | nil => simp [advance]
  | cons c rest ih =>
    simp only [advance, ih, List.map_cons, List.sum_cons]
    rw [Nat.add_mod, Nat.mod_mod, ← Nat.add_mod, Nat.add_assoc]

theorem advance_lt {B : Type} (cs : List (B × Nat)) (F : Nat) (h : F < 2 ^ 32) :
    advance cs F < 2 ^ 32 := by
  induction cs generalizing F with
  | nil => exact h
  | cons c rest ih => exact ih _ (Nat.mod_lt _ (by norm_num))

theorem advance_zero {B : Type} (cs : List (B × Nat)) :
    advance cs 0 = (cs.map fun c => c.2).sum % 2 ^ 32 := by
  have h1 := advance_mod cs 0
  rw [Nat.mod_eq_of_lt (advance_lt cs 0 (by norm_num)), Nat.zero_add] at h1
  exact h1

/-- The elements of `pack` are packed from `F`: the first starts at `F` and each later one
where the previous one ends, modulo `2 ^ 32`. -/
theorem pack_contiguous {B : Type} (cs : List (B × Nat)) (F : Nat) :
    (∀ e, (pack cs F)[0]? = some e → e.FirstIndex = F) ∧
    (∀ i e e1, (pack cs F)[i]? = some e → (pack cs F)[i + 1]? = some e1 →
      e1.FirstIndex = (e.FirstIndex + e.NumTriangles) % 2 ^ 32) := by
  induction cs generalizing F with
  | nil => simp [pack]
  | cons c rest ih =>
    obtain ⟨ih0, ih1⟩ := ih ((F + c.2) % 2 ^ 32)
    constructor
    · intro e he
      simp only [pack, List.getElem?_cons_zero, Option.some.injEq] at he
      rw [← he]
    · intro i e e1 he he1
      cases i with
      | zero =>
        simp only [pack, List.getElem?_cons_zero, Option.some.injEq] at he
        simp only [pack, Nat.zero_add, List.getElem?_cons_succ] at he1
        rw [ih0 e1 he1, ← he]
      | succ i =>
        simp only [pack, List.getElem?_cons_succ] at he he1
        exact ih1 i e e1 he he1

theorem savedAt_nil {B : Type} (L s : Nat) : savedAt ([] : FGigaBatchMap B) L s = [] := rfl

theorem savedAt_append {B : Type} (M1 M2 : FGigaBatchMap B) (L s : Nat) :
    savedAt (M1 ++ M2) L s = savedAt M1 L s ++ savedAt M2 L s := by
  simp [savedAt]

theorem savedAt_cons {B : Type} (S : FSavedBatch B) (M : FGigaBatchMap B) (L s : Nat) :
    savedAt (S :: M) L s =
      (if S.LODIndex = L ∧ S.SectionIndex = s then [S.Batch] else []) ++ savedAt M L s := by
  simp only [savedAt, List.filter_cons]
  split <;> simp_all

theorem savedAt_packSections {B : Type} (L1 : Nat) (row : List (List (B × Nat))) (s0 F L s : Nat) :
    savedAt (packSections L1 s0 row F) L s =
      if L1 = L ∧ s0 ≤ s then
        ((row[s - s0]?).map fun cs =>
          (⟨pack cs (advance (row.take (s - s0)).flatten F)⟩ : FGigaBatch B)).toList
      else [] := by
  induction row generalizing s0 F with
  | nil => simp [packSections, savedAt_nil]
  | cons cs rest ih =>
    rw [packSections, savedAt_cons, ih]
    dsimp only
    by_cases hL : L1 = L
    · by_cases hs : s0 = s
      · subst hs
        simp [hL, advance]
      · by_cases hle : s0 ≤ s
        · have h1 : s0 + 1 ≤ s := by omega
          have h2 : s - s0 = (s - (s0 + 1)) + 1 := by omega
          simp only [hL, hs, and_false, if_false, h1, and_self, if_true, hle, List.nil_append]
          rw [h2]
          simp [advance_append]
        · have h1 : ¬ s0 + 1 ≤ s := by omega
          simp [hL, hs, hle, h1]
    · simp [hL]

theorem savedAt_packLODs {B : Type} (rws : List (List (List (B × Nat)))) (L0 L s : Nat) :
    savedAt (packLODs L0 rws) L s =
      if L0 ≤ L then
        ((rws[L - L0]?).bind fun row => (row[s]?).map fun cs =>
          (⟨pack cs (advance (row.take s).flatten 0)⟩ : FGigaBatch B)).toList
      else [] := by
  induction rws generalizing L0 with
  | nil => simp [packLODs, savedAt_nil]
  | cons row rest ih =>
    rw [packLODs, savedAt_append, savedAt_packSections, ih]
    by_cases h0 : L0 = L
    · subst h0
      simp
    · by_cases hle : L0 ≤ L
      · have h1 : L0 + 1 ≤ L := by omega
        have h2 : L - L0 = (L - (L0 + 1)) + 1 := by omega
        simp only [h0, false_and, if_false, h1, if_true, hle, List.nil_append]
        rw [h2]
        simp
      · have h1 : ¬ L0 + 1 ≤ L := by omega
        simp [h0, hle, h1]

theorem elementsBefore_packLODs {B : Type} (rws : List (List (List (B × Nat)))) (L : Nat)
    (row : List (List (B × Nat))) (hrow : rws[L]? = some row) (n : Nat) (hn : n ≤ row.length) :
    elementsBefore (packLODs 0 rws) L n = pack (row.take n).flatten 0 := by
  induction n with
  | zero => simp [elementsBefore, pack]
  | succ n ih =>
    have hlt : n < row.length := by omega
    have ih1 := ih (by omega)
    unfold elementsBefore at ih1 ⊢
    rw [List.range_succ, List.map_append, List.flatten_append, ih1]
    simp only [List.map_cons, List.map_nil, savedAt_packLODs]
    rw [List.take_succ]
    simp only [Nat.zero_le, if_true, Nat.sub_zero, hrow, Option.some_bind,
      List.getElem?_eq_getElem hlt, Option.map_some', Option.toList_some, List.map_cons, List.map_nil,
      List.flatten_cons, List.flatten_nil, List.append_nil, List.flatten_append, pack_append]

theorem lodVisits_filter {T B : Type} (ci : Int) (mc : UStaticMeshComponent T B)
    (L0 : Nat) (LODs : List (List FStaticMeshSection)) (L : Nat) :
    (lodVisits ci mc L0 LODs).filter (fun v => v.LODIndex = L) =
      if L0 ≤ L then (LODs.getD (L - L0) []).map (mkVisit ci mc L) else [] := by
  induction LODs generalizing L0 with
  | nil => simp [lodVisits]
  | cons Ss Rest ih =>
    rw [lodVisits, List.filter_append, ih]
    have hf : (Ss.map (mkVisit ci mc L0)).filter (fun v => v.LODIndex = L) =
        if L0 = L then Ss.map (mkVisit ci mc L) else [] := by
      by_cases h : L0 = L
      · subst h
        simp [List.filter_map, Function.comp_def, mkVisit]
      · simp [List.filter_map, Function.comp_def, mkVisit, h]
    rw [hf]
    by_cases h0 : L0 = L
    · subst h0
      simp
    · by_cases hle : L0 ≤ L
      · have h1 : L0 + 1 ≤ L := by omega
        have h2 : L - L0 = (L - (L0 + 1)) + 1 := by omega
        simp only [h0, if_false, h1, if_true, hle, List.nil_append]
        rw [h2]
        simp
      · have h1 : ¬ L0 + 1 ≤ L := by omega
        simp [h0, hle, h1]

theorem componentVisits_filter {T B : Type} (i : Nat) (C : UPrimitiveComponent T B) (L : Nat) :
    (componentVisits i C).filter (fun v => v.LODIndex = L) =
      (sourceSections L C).map fun x => ⟨(i : Int), L, x.1, x.2⟩ := by
  unfold componentVisits sourceSections
  cases hC : C.AsStaticMeshComponent with
  | none => simp
  | some MC =>
    cases hM : MC.StaticMesh with
    | none => simp [hM]
    | some Mesh =>
      simp [hM, lodVisits_filter, mkVisit, Function.comp_def]

theorem recordsAt_append (M : Option UMaterialInterface) (L : Nat) (vs ws : List Visit) :
    recordsAt M L (vs ++ ws) = recordsAt M L vs ++ recordsAt M L ws := by
  simp [recordsAt]

theorem recordsAt_componentVisits {T B : Type} (M : Option UMaterialInterface) (L i : Nat)
    (C : UPrimitiveComponent T B) :
    recordsAt M L (componentVisits i C) =
      (sourceSections L C).map fun x =>
        if sameName x.1 M then ((i : Int), x.2) else (INDEX_NONE, 0) := by
  unfold recordsAt
  rw [componentVisits_filter, List.map_map]
  apply List.map_congr_left
  intro x _
  simp [recordOf, sameName]

theorem lookupsOk_append {B : Type} (SB : List B) (a b : List (Int × Nat)) :
    lookupsOk SB (a ++ b) ↔ lookupsOk SB a ∧ lookupsOk SB b := by
  simp only [lookupsOk, List.mem_append]
  constructor
  · intro h
    exact ⟨fun r hr => h r (Or.inl hr), fun r hr => h r (Or.inr hr)⟩
  · rintro ⟨h1, h2⟩ r (hr | hr)
    · exact h1 r hr
    · exact h2 r hr

theorem resolved_append {B : Type} (SB : List B) (a b : List (Int × Nat)) :
    resolved SB (a ++ b) = resolved SB a ++ resolved SB b := by
  simp [resolved]

theorem resolved_cons {B : Type} (SB : List B) (r : Int × Nat) (rs : List (Int × Nat)) :
    resolved SB (r :: rs) =
      match resolveRecord SB r with
      | none => resolved SB rs
      | some c => c :: resolved SB rs := by
  simp only [resolved, List.filterMap_cons]
  cases resolveRecord SB r <;> rfl

theorem natCast_ne_INDEX_NONE (i : Nat) : (i : Int) ≠ INDEX_NONE := by
  unfold INDEX_NONE
  omega

/-- The counts of the real contributions of one source are its matching counts. -/
theorem resolved_component_counts {T B : Type} (SB : List B) (M : Option UMaterialInterface)
    (L i : Nat) (C : UPrimitiveComponent T B)
    (hok : lookupsOk SB (recordsAt M L (componentVisits i C))) :
    (resolved SB (recordsAt M L (componentVisits i C))).map (fun c => c.2) =
      matchingCounts M L C := by
  rw [recordsAt_componentVisits] at hok ⊢
  unfold matchingCounts
  generalize sourceSections L C = ys at hok ⊢
  induction ys with
  | nil => rfl
  | cons x xs ih =>
    have hok1 : lookupsOk SB (xs.map fun x =>
        if sameName x.1 M then ((i : Int), x.2) else (INDEX_NONE, 0)) :=
      fun r hr => hok r (List.mem_cons_of_mem _ hr)
    have ih1 := ih hok1
    by_cases hx : sameName x.1 M = true
    · have hb := hok ((i : Int), x.2) (by simp [hx]) (natCast_ne_INDEX_NONE i)
      obtain ⟨b, hb⟩ := Option.ne_none_iff_exists'.1 hb
      have h1 : resolveRecord SB (if sameName x.1 M = true then ((i : Int), x.2)
          else (INDEX_NONE, 0)) = some (b, x.2) := by
        simp only [hx, if_true, resolveRecord, natCast_ne_INDEX_NONE, if_false]
        simp only [hb, Option.map_some']
      rw [List.map_cons, resolved_cons, h1, List.filter_cons, if_pos hx, List.map_cons,
        List.map_cons, ih1]
    · have h1 : resolveRecord SB (if sameName x.1 M = true then ((i : Int), x.2)
          else (INDEX_NONE, 0)) = none := by
        simp [hx, resolveRecord]
      rw [List.map_cons, resolved_cons, h1, List.filter_cons, if_neg hx, ih1]

theorem allVisits_cons {T B : Type} (i : Nat) (C : UPrimitiveComponent T B)
    (Cs : List (UPrimitiveComponent T B)) :
    allVisits i (C :: Cs) = componentVisits i C ++ allVisits (i + 1) Cs := rfl

/-- The counts of the real contributions of all sources: the matching counts of the sources
in source order. -/
theorem resolved_counts {T B : Type} (SB : List B) (M : Option UMaterialInterface)
    (L i : Nat) (Cs : List (UPrimitiveComponent T B))
    (hok : lookupsOk SB (recordsAt M L (allVisits i Cs))) :
    (resolved SB (recordsAt M L (allVisits i Cs))).map (fun c => c.2) =
      (Cs.map (matchingCounts M L)).flatten := by
  induction Cs generalizing i with
  | nil => rfl
  | cons C Cs ih =>
    rw [allVisits_cons, recordsAt_append, lookupsOk_append] at hok
    rw [allVisits_cons, recordsAt_append, resolved_append, List.map_append,
      resolved_component_counts SB M L i C hok.1, ih (i + 1) hok.2]
    simp

theorem getElem?_rows {V T B : Type} (E : EngineMath V T B) (SM : UStaticMesh B) (P : V)
    (Cs : List (UPrimitiveComponent T B)) (L : Nat) :
    (rows (allBounds E P Cs) SM (allVisits 0 Cs))[L]? =
      (SM.LODResources[L]?).map fun Secs => Secs.map (sectionContribs E SM P Cs L) := by
  rw [rows, List.getElem?_mapIdx]
  rfl

/-- The batch a completed run saves under every key, in closed form. -/
theorem savedAt_Reconstruct {V T B : Type} (E : EngineMath V T B) (SM : UStaticMesh B) (P : V)
    (Cs : List (UPrimitiveComponent T B)) (Map : FGigaBatchMap B)
    (h : Reconstruct E SM P Cs = .ok Map) (L s : Nat) :
    savedAt Map L s =
      ((SM.LODResources[L]?).bind fun Secs => (Secs[s]?).map fun Sec =>
        (⟨pack (sectionContribs E SM P Cs L Sec)
          (advance ((Secs.take s).map (sectionContribs E SM P Cs L)).flatten 0)⟩ :
            FGigaBatch B)).toList := by
  obtain ⟨-, -, -, rfl⟩ := (Reconstruct_eq_ok_iff E SM P Cs Map).1 h
  rw [savedAt_packLODs]
  simp only [Nat.zero_le, if_true, Nat.sub_zero, getElem?_rows]
  cases SM.LODResources[L]? with
  | none => rfl
  | some Secs =>
    simp only [Option.map_some', Option.some_bind, List.getElem?_map, List.map_take]
    cases Secs[s]? <;> rfl

theorem savedAt_Reconstruct_some {V T B : Type} (E : EngineMath V T B) (SM : UStaticMesh B)
    (P : V) (Cs : List (UPrimitiveComponent T B)) (Map : FGigaBatchMap B)
    (h : Reconstruct E SM P Cs = .ok Map) (L s : Nat) (Secs : List FStaticMeshSection)
    (Sec : FStaticMeshSection) (hL : SM.LODResources[L]? = some Secs) (hs : Secs[s]? = some Sec) :
    savedAt Map L s =
      [⟨pack (sectionContribs E SM P Cs L Sec)
        (advance ((Secs.take s).map (sectionContribs E SM P Cs L)).flatten 0)⟩] := by
  rw [savedAt_Reconstruct E SM P Cs Map h, hL]
  simp [hs]

theorem elementsBefore_Reconstruct {V T B : Type} (E : EngineMath V T B) (SM : UStaticMesh B) (P : V)
    (Cs : List (UPrimitiveComponent T B)) (Map : FGigaBatchMap B)
    (h : Reconstruct E SM P Cs = .ok Map) (L n : Nat) (Secs : List FStaticMeshSection)
    (hL : SM.LODResources[L]? = some Secs) (hn : n ≤ Secs.length) :
    elementsBefore Map L n = pack ((Secs.take n).map (sectionContribs E SM P Cs L)).flatten 0 := by
  obtain ⟨-, -, -, rfl⟩ := (Reconstruct_eq_ok_iff E SM P Cs Map).1 h
  have hrow := getElem?_rows E SM P Cs L
  rw [hL, Option.map_some'] at hrow
  rw [elementsBefore_packLODs _ L _ hrow n (by simpa using hn), List.map_take]

theorem getElem?_of_lt_sections {B : Type} (SM : UStaticMesh B) (L s : Nat)
    (hL : L < SM.GetNumLODs) (hs : s < SM.GetNumSections L) :
    ∃ Secs Sec, SM.LODResources[L]? = some Secs ∧ Secs[s]? = some Sec := by
  unfold UStaticMesh.GetNumLODs at hL
  unfold UStaticMesh.GetNumSections at hs
  rw [List.getD_eq_getElem?_getD, List.getElem?_eq_getElem hL, Option.getD_some] at hs
  exact ⟨_, _, List.getElem?_eq_getElem hL, List.getElem?_eq_getElem hs⟩

theorem lt_sections_of_getElem? {B : Type} (SM : UStaticMesh B) (L s : Nat)
    (Secs : List FStaticMeshSection) (Sec : FStaticMeshSection)
    (hL : SM.LODResources[L]? = some Secs) (hs : Secs[s]? = some Sec) :
    L < SM.GetNumLODs ∧ s < SM.GetNumSections L ∧ SM.GetNumSections L = Secs.length := by
  refine ⟨(List.getElem?_eq_some.1 hL).1, ?_, ?_⟩
  · unfold UStaticMesh.GetNumSections
    rw [List.getD_eq_getElem?_getD, hL, Option.getD_some]
    exact (List.getElem?_eq_some.1 hs).1
  · unfold UStaticMesh.GetNumSections
    rw [List.getD_eq_getElem?_getD, hL, Option.getD_some]

/-- The triangle counts of the batch a completed run saves for a merged section: the
matching counts of the sources, in source order. -/
theorem batch_counts {V T B : Type} (E : EngineMath V T B) (SM : UStaticMesh B) (P : V)
    (Cs : List (UPrimitiveComponent T B)) (Map : FGigaBatchMap B)
    (h : Reconstruct E SM P Cs = .ok Map) (L s : Nat) (Secs : List FStaticMeshSection)
    (Sec : FStaticMeshSection) (hL : SM.LODResources[L]? = some Secs) (hs : Secs[s]? = some Sec) :
    ∃ Batch, savedAt Map L s = [Batch] ∧
      Batch.Elements.map (fun e => e.NumTriangles) =
        (Cs.map (matchingCounts (SM.GetMaterial Sec.MaterialIndex) L)).flatten := by
  refine ⟨_, savedAt_Reconstruct_some E SM P Cs Map h L s Secs Sec hL hs, ?_⟩
  obtain ⟨-, -, hok, -⟩ := (Reconstruct_eq_ok_iff E SM P Cs Map).1 h
  have hmem : Sec ∈ Secs := List.mem_iff_getElem?.2 ⟨s, hs⟩
  dsimp only
  rw [pack_map_NumTriangles]
  exact resolved_counts _ _ L 0 Cs (hok L Secs hL Sec hmem)

theorem mem_lodVisits {T B : Type} (ci : Int) (mc : UStaticMeshComponent T B) (L0 : Nat)
    (LODs : List (List FStaticMeshSection)) (v : Visit) (hv : v ∈ lodVisits ci mc L0 LODs) :
    v.ComponentIndex = ci ∧ L0 ≤ v.LODIndex ∧ v.LODIndex < L0 + LODs.length ∧
      ∃ Secs ∈ LODs, ∃ S ∈ Secs, v.Material = mc.GetMaterial S.MaterialIndex := by
  induction LODs generalizing L0 with
  | nil => simp [lodVisits] at hv
  | cons Ss Rest ih =>
    rw [lodVisits, List.mem_append] at hv
    rcases hv with hv | hv
    · obtain ⟨S, hS, rfl⟩ := List.mem_map.1 hv
      refine ⟨rfl, Nat.le_refl _, ?_, Ss, List.mem_cons_self _ _, S, hS, rfl⟩
      simp only [mkVisit, List.length_cons]
      omega
    · obtain ⟨h1, h2, h3, Secs, hSecs, S, hS, h4⟩ := ih (L0 + 1) hv
      refine ⟨h1, by omega, ?_, Secs, List.mem_cons_of_mem _ hSecs, S, hS, h4⟩
      simp only [List.length_cons]
      omega

theorem mem_allVisits {T B : Type} (i : Nat) (Cs : List (UPrimitiveComponent T B)) (v : Visit)
    (hv : v ∈ allVisits i Cs) :
    ∃ k : Nat, v.ComponentIndex = (k : Int) ∧ i ≤ k ∧ k < i + Cs.length ∧
      ∃ C ∈ Cs, ∃ MC Mesh, C.AsStaticMeshComponent = some MC ∧ MC.StaticMesh = some Mesh ∧
        v.LODIndex < Mesh.LODResources.length ∧
        ∃ Secs ∈ Mesh.LODResources, ∃ S ∈ Secs, v.Material = MC.GetMaterial S.MaterialIndex := by
  induction Cs generalizing i with
  | nil => simp [allVisits] at hv
  | cons C Rest ih =>
    rw [allVisits_cons, List.mem_append] at hv
    rcases hv with hv | hv
    · unfold componentVisits at hv
      cases hC : C.AsStaticMeshComponent with
      | none => simp [hC] at hv
      | some MC =>
        cases hM : MC.StaticMesh with
        | none => simp [hC, hM] at hv
        | some Mesh =>
          simp only [hC, hM] at hv
          obtain ⟨h1, _, h3, h4⟩ := mem_lodVisits _ _ _ _ _ hv
          refine ⟨i, h1, Nat.le_refl _, ?_, C, List.mem_cons_self _ _, MC, Mesh, hC, hM, ?_, h4⟩
          · simp only [List.length_cons]; omega
          · omega
    · obtain ⟨k, h1, h2, h3, C1, hC1, rest⟩ := ih (i + 1) hv
      refine ⟨k, h1, by omega, ?_, C1, List.mem_cons_of_mem _ hC1, rest⟩
      simp only [List.length_cons]
      omega

theorem length_allBounds {V T B : Type} (E : EngineMath V T B) (P : V)
    (Cs : List (UPrimitiveComponent T B)) (hs : allStatic Cs) (hm : meshesOk Cs) :
    (allBounds E P Cs).length = Cs.length := by
  induction Cs with
  | nil => rfl
  | cons C Rest ih =>
    have hC := hs C (List.mem_cons_self _ _)
    obtain ⟨MC, hMC⟩ := Option.ne_none_iff_exists'.1 hC
    have hM := hm C (List.mem_cons_self _ _) MC hMC
    obtain ⟨Mesh, hMesh⟩ := Option.ne_none_iff_exists'.1 hM
    have ih1 := ih (fun C1 h1 => hs C1 (List.mem_cons_of_mem _ h1))
      (fun C1 h1 => hm C1 (List.mem_cons_of_mem _ h1))
    simp only [allBounds, List.map_cons, List.flatten_cons, componentBounds, hMC, hMesh,
      List.length_append, List.length_cons, List.length_nil] at ih1 ⊢
    omega

theorem mem_recordsAt (M : Option UMaterialInterface) (L : Nat) (vs : List Visit)
    (r : Int × Nat) (hr : r ∈ recordsAt M L vs) (hne : r.1 ≠ INDEX_NONE) :
    ∃ v ∈ vs, v.LODIndex = L ∧ r = (v.ComponentIndex, v.NumTriangles) := by
  unfold recordsAt at hr
  obtain ⟨v, hv, rfl⟩ := List.mem_map.1 hr
  rw [List.mem_filter] at hv
  refine ⟨v, hv.1, by simpa using hv.2, ?_⟩
  unfold recordOf at hne ⊢
  split
  · rfl
  · rename_i h
    simp [h] at hne

theorem lookupBounds_ne_none {B : Type} (SB : List B) (k : Nat) (hk : k < SB.length) :
    lookupBounds SB (k : Int) ≠ none := by
  unfold lookupBounds
  simp [List.getElem?_eq_getElem hk]

/-- With static-mesh components only, each having a mesh, every record finds its bounds. -/
theorem lookupsOk_of_static {V T B : Type} (E : EngineMath V T B) (P : V)
    (Cs : List (UPrimitiveComponent T B)) (hs : allStatic Cs) (hm : meshesOk Cs)
    (M : Option UMaterialInterface) (L : Nat) :
    lookupsOk (allBounds E P Cs) (recordsAt M L (allVisits 0 Cs)) := by
  intro r hr hne
  obtain ⟨v, hv, -, rfl⟩ := mem_recordsAt M L _ r hr hne
  obtain ⟨k, hk, -, hlt, -⟩ := mem_allVisits 0 Cs v hv
  dsimp only
  rw [hk]
  apply lookupBounds_ne_none
  rw [length_allBounds E P Cs hs hm]
  omega

theorem Reconstruct_error {V T B : Type} (E : EngineMath V T B) (SM : UStaticMesh B)
    (P : V) (Cs : List (UPrimitiveComponent T B)) (e : Fault)
    (h : Reconstruct E SM P Cs = .error e) :
    (accumulateComponents E P 0 Cs [] (collectSections SM) = .error e) ∨
      (meshesOk Cs ∧ (∀ v ∈ allVisits 0 Cs, v.Ok (collectSections SM)) ∧
        ¬ (∀ L Secs, SM.LODResources[L]? = some Secs → ∀ Sec ∈ Secs,
          lookupsOk (allBounds E P Cs)
            (recordsAt (SM.GetMaterial Sec.MaterialIndex) L (allVisits 0 Cs)))) := by
  cases hacc : accumulateComponents E P 0 Cs [] (collectSections SM) with
  | error e1 =>
    left
    unfold Reconstruct at h
    simp only [hacc, Except.error.injEq] at h
    rw [h]
  | ok out =>
    right
    obtain ⟨hm, hv, -⟩ := (accumulateComponents_eq_ok_iff E P 0 Cs [] _ out).1 hacc
    refine ⟨hm, hv, ?_⟩
    intro hl
    have := (Reconstruct_eq_ok_iff E SM P Cs _).2 ⟨hm, hv, hl, rfl⟩
    rw [h] at this
    cases this

/-- The reconstruction completes when every component is a static-mesh component with a mesh
of at most as many LODs as the merged mesh and no material looked up is null. -/
theorem Reconstruct_ok_of_wellformed {V T B : Type} (E : EngineMath V T B) (SM : UStaticMesh B)
    (P : V) (Cs : List (UPrimitiveComponent T B)) (hs : allStatic Cs) (hm : meshesOk Cs)
    (hl : lodsWithin SM Cs) (hmat : materialsSet SM Cs) :
    ∃ Map, Reconstruct E SM P Cs = .ok Map := by
  refine ⟨_, (Reconstruct_eq_ok_iff E SM P Cs _).2 ⟨hm, ?_, ?_, rfl⟩⟩
  · intro v hv
    obtain ⟨k, -, -, -, C, hC, MC, Mesh, hMC, hMesh, hlt, Secs, hSecs, S, hS, hvm⟩ :=
      mem_allVisits 0 Cs v hv
    have hL : v.LODIndex < SM.LODResources.length :=
      Nat.lt_of_lt_of_le hlt (hl C hC MC Mesh hMC hMesh)
    refine ⟨(SM.LODResources[v.LODIndex]).map (initialInfo SM), ?_, Or.inr ⟨?_, ?_⟩⟩
    · rw [collectSections_eq, List.getElem?_map, List.getElem?_eq_getElem hL]
      rfl
    · rw [hvm]
      exact hmat.2 C hC MC Mesh hMC hMesh Secs hSecs S hS
    · intro I hI
      obtain ⟨Sec, hSec, rfl⟩ := List.mem_map.1 hI
      exact hmat.1 _ (List.getElem_mem _) Sec hSec
  · intro L Secs _ Sec _
    exact lookupsOk_of_static E P Cs hs hm _ L

theorem emitElements_error {B : Type} (SB : List B) (Info : FMeshSectionInfo) (k i F : Nat)
    (Els : List (FGigaBatchElement B)) (e : Fault)
    (h : emitElements SB Info k i F Els = .error e) : e = .OutOfRange := by
  induction k generalizing i F Els with
  | zero => simp [emitElements] at h
  | succ k ih =>
    unfold emitElements at h
    cases hci : Info.ComponentIndex[i]? with
    | none => simp only [hci, Except.error.injEq] at h; exact h.symm
    | some ci =>
      simp only [hci] at h
      by_cases hnone : ci = INDEX_NONE
      · simp only [hnone, if_true] at h
        exact ih _ _ _ h
      · simp only [hnone, if_false] at h
        cases hb : lookupBounds SB ci with
        | none => simp only [hb, Except.error.injEq] at h; exact h.symm
        | some b =>
          simp only [hb] at h
          cases hn : Info.NumTriangles[i]? with
          | none => simp only [hn, Except.error.injEq] at h; exact h.symm
          | some n1 =>
            simp only [hn] at h
            exact ih _ _ _ h

theorem emitSections_error {B : Type} (SB : List B) (R : List (List FMeshSectionInfo))
    (L k s F : Nat) (Map : FGigaBatchMap B) (e : Fault)
    (h : emitSections SB R L k s F Map = .error e) : e = .OutOfRange := by
  induction k generalizing s F Map with
  | zero => simp [emitSections] at h
  | succ k ih =>
    unfold emitSections at h
    cases hR : R[L]? with
    | none => simp only [hR, Except.error.injEq] at h; exact h.symm
    | some Infos =>
      simp only [hR] at h
      cases hI : Infos[s]? with
      | none => simp only [hI, Except.error.injEq] at h; exact h.symm
      | some Info =>
        simp only [hI] at h
        cases hel : emitElements SB Info Info.NumElements 0 F [] with
        | error e2 =>
          simp only [hel, Except.error.injEq] at h
          subst h
          exact emitElements_error _ _ _ _ _ _ _ hel
        | ok res =>
          simp only [hel] at h
          exact ih _ _ _ h

theorem emitLODs_error {B : Type} (SM : UStaticMesh B) (SB : List B)
    (R : List (List FMeshSectionInfo)) (k L : Nat) (Map : FGigaBatchMap B) (e : Fault)
    (h : emitLODs SM SB R k L Map = .error e) : e = .OutOfRange := by
  induction k generalizing L Map with
  | zero => simp [emitLODs] at h
  | succ k ih =>
    unfold emitLODs at h
    cases hsec : emitSections SB R L (SM.GetNumSections L) 0 0 Map with
    | error e1 =>
      simp only [hsec, Except.error.injEq] at h
      subst h
      exact emitSections_error _ _ _ _ _ _ _ _ hsec
    | ok Map1 =>
      simp only [hsec] at h
      exact ih _ _ h

theorem Reconstruct_error_kind {V T B : Type} (E : EngineMath V T B) (SM : UStaticMesh B)
    (P : V) (Cs : List (UPrimitiveComponent T B)) (e : Fault)
    (h : Reconstruct E SM P Cs = .error e) : e = .NullDeref ∨ e = .OutOfRange := by
  unfold Reconstruct at h
  cases hacc : accumulateComponents E P 0 Cs [] (collectSections SM) with
  | error e1 =>
    simp only [hacc, Except.error.injEq] at h
    subst h
    rcases accumulateComponents_error E P 0 Cs [] _ _ hacc with h1 | ⟨h1, -⟩
    · exact Or.inl h1
    · exact Or.inr h1
  | ok out =>
    simp only [hacc] at h
    exact Or.inr (emitLODs_error _ _ _ _ _ _ _ h)

theorem allVisits_append {T B : Type} (i : Nat) (Xs Ys : List (UPrimitiveComponent T B)) :
    allVisits i (Xs ++ Ys) = allVisits i Xs ++ allVisits (i + Xs.length) Ys := by
  induction Xs generalizing i with
  | nil => simp [allVisits]
  | cons C Rest ih =>
    simp only [List.cons_append, allVisits_cons, ih, List.append_assoc, List.length_cons]
    congr 3
    omega

theorem allBounds_append {V T B : Type} (E : EngineMath V T B) (P : V)
    (Xs Ys : List (UPrimitiveComponent T B)) :
    allBounds E P (Xs ++ Ys) = allBounds E P Xs ++ allBounds E P Ys := by
  simp [allBounds]

theorem allBounds_cons {V T B : Type} (E : EngineMath V T B) (P : V)
    (C : UPrimitiveComponent T B) (Ys : List (UPrimitiveComponent T B)) :
    allBounds E P (C :: Ys) = componentBounds E P C ++ allBounds E P Ys := by
  simp [allBounds]

theorem meshesOk_append {T B : Type} (Xs Ys : List (UPrimitiveComponent T B)) :
    meshesOk (Xs ++ Ys) ↔ meshesOk Xs ∧ meshesOk Ys := by
  simp only [meshesOk, List.mem_append]
  constructor
  · intro h
    exact ⟨fun C hC => h C (Or.inl hC), fun C hC => h C (Or.inr hC)⟩
  · rintro ⟨h1, h2⟩ C (hC | hC)
    · exact h1 C hC
    · exact h2 C hC

theorem Visit.Ok_congr (v w : Visit) (R : List (List FMeshSectionInfo))
    (hL : v.LODIndex = w.LODIndex) (hM : v.Material = w.Material) : v.Ok R ↔ w.Ok R := by
  unfold Visit.Ok
  rw [hL, hM]

theorem lodVisits_Ok {T B : Type} (ci cj : Int) (mc : UStaticMeshComponent T B) (L0 : Nat)
    (LODs : List (List FStaticMeshSection)) (R : List (List FMeshSectionInfo))
    (h : ∀ v ∈ lodVisits ci mc L0 LODs, v.Ok R) : ∀ v ∈ lodVisits cj mc L0 LODs, v.Ok R := by
  induction LODs generalizing L0 with
  | nil => simp [lodVisits]
  | cons Ss Rest ih =>
    simp only [lodVisits, List.mem_append, List.mem_map] at h ⊢
    rintro v (⟨S, hS, rfl⟩ | hv)
    · exact (Visit.Ok_congr _ _ R rfl rfl).1 (h (mkVisit ci mc L0 S) (Or.inl ⟨S, hS, rfl⟩))
    · exact ih (L0 + 1) (fun w hw => h w (Or.inr hw)) v hv

theorem componentVisits_Ok {T B : Type} (i j : Nat) (C : UPrimitiveComponent T B)
    (R : List (List FMeshSectionInfo)) (h : ∀ v ∈ componentVisits i C, v.Ok R) :
    ∀ v ∈ componentVisits j C, v.Ok R := by
  unfold componentVisits at h ⊢
  cases hC : C.AsStaticMeshComponent with
  | none => simp
  | some MC =>
    cases hM : MC.StaticMesh with
    | none => simp [hM]
    | some Mesh =>
      simp only [hC, hM] at h ⊢
      exact lodVisits_Ok _ _ _ _ _ _ h

/-- Whether the visits of a selection meet a fault does not depend on the positions of the
components. -/
theorem allVisits_Ok_iff {T B : Type} (i : Nat) (Cs : List (UPrimitiveComponent T B))
    (R : List (List FMeshSectionInfo)) :
    (∀ v ∈ allVisits i Cs, v.Ok R) ↔ ∀ C ∈ Cs, ∀ v ∈ componentVisits 0 C, v.Ok R := by
  induction Cs generalizing i with
  | nil => simp [allVisits]
  | cons C Rest ih =>
    simp only [allVisits_cons, List.mem_append, List.mem_cons, forall_eq_or_imp]
    constructor
    · intro h
      exact ⟨componentVisits_Ok i 0 C R (fun v hv => h v (Or.inl hv)),
        (ih (i + 1)).1 (fun v hv => h v (Or.inr hv))⟩
    · rintro ⟨h1, h2⟩ v (hv | hv)
      · exact componentVisits_Ok 0 i C R h1 v hv
      · exact (ih (i + 1)).2 h2 v hv

theorem lookupBounds_append_self {B : Type} (pre : List B) (b : B) (post : List B) :
    lookupBounds (pre ++ b :: post) (pre.length : Int) = some b := by
  unfold lookupBounds
  rw [if_pos (Int.natCast_nonneg _), Int.toNat_ofNat,
    List.getElem?_append_right (Nat.le_refl _)]
  simp

/-- The real contributions of one source, when its own bounds are found at its index. -/
theorem resolved_component {T B : Type} (SB : List B) (M : Option UMaterialInterface)
    (L i : Nat) (C : UPrimitiveComponent T B) (b : B) (hb : lookupBounds SB (i : Int) = some b) :
    resolved SB (recordsAt M L (componentVisits i C)) =
      (matchingCounts M L C).map fun n => (b, n) := by
  rw [recordsAt_componentVisits]
  unfold matchingCounts
  generalize sourceSections L C = ys
  induction ys with
  | nil => rfl
  | cons x xs ih =>
    by_cases hx : sameName x.1 M = true
    · have h1 : resolveRecord SB (if sameName x.1 M = true then ((i : Int), x.2)
          else (INDEX_NONE, 0)) = some (b, x.2) := by
        simp only [hx, if_true, resolveRecord, natCast_ne_INDEX_NONE, if_false]
        simp only [hb, Option.map_some']
      rw [List.map_cons, resolved_cons, h1, List.filter_cons, if_pos hx, List.map_cons,
        List.map_cons, ih]
    · have h1 : resolveRecord SB (if sameName x.1 M = true then ((i : Int), x.2)
          else (INDEX_NONE, 0)) = none := by
        simp [hx, resolveRecord]
      rw [List.map_cons, resolved_cons, h1, List.filter_cons, if_neg hx, ih]

/-- With static-mesh components only, each having a mesh, the real contributions to a merged
section are the contributions of the sources in source order, each with the source's own
bounds. -/
theorem resolved_static {V T B : Type} (E : EngineMath V T B) (P : V)
    (M : Option UMaterialInterface) (L : Nat) (Cs : List (UPrimitiveComponent T B))
    (hs : allStatic Cs) (hm : meshesOk Cs) (pre : List B) :
    resolved (pre ++ allBounds E P Cs) (recordsAt M L (allVisits pre.length Cs)) =
      (Cs.map (contributions E P M L)).flatten := by
  induction Cs generalizing pre with
  | nil => rfl
  | cons C Rest ih =>
    have hC := hs C (List.mem_cons_self _ _)
    obtain ⟨MC, hMC⟩ := Option.ne_none_iff_exists'.1 hC
    have hM := hm C (List.mem_cons_self _ _) MC hMC
    obtain ⟨Mesh, hMesh⟩ := Option.ne_none_iff_exists'.1 hM
    have hb : componentBounds E P C = [pivotBounds E P MC Mesh] := by
      simp [componentBounds, hMC, hMesh]
    have hbo : boundsOf E P C = some (pivotBounds E P MC Mesh) := by
      simp [boundsOf, hMC, hMesh]
    have ih1 := ih (fun C1 h1 => hs C1 (List.mem_cons_of_mem _ h1))
      (fun C1 h1 => hm C1 (List.mem_cons_of_mem _ h1)) (pre ++ [pivotBounds E P MC Mesh])
    simp only [List.length_append, List.length_singleton, List.append_assoc,
      List.singleton_append] at ih1
    rw [allVisits_cons, recordsAt_append, resolved_append, allBounds_cons, hb,
      List.singleton_append, ih1,
      resolved_component _ M L pre.length C _ (lookupBounds_append_self pre _ _)]
    simp [contributions, hbo]

theorem sectionContribs_static {V T B : Type} (E : EngineMath V T B) (SM : UStaticMesh B)
    (P : V) (Cs : List (UPrimitiveComponent T B)) (hs : allStatic Cs) (hm : meshesOk Cs)
    (L : Nat) (Sec : FStaticMeshSection) :
    sectionContribs E SM P Cs L Sec =
      (Cs.map (contributions E P (SM.GetMaterial Sec.MaterialIndex) L)).flatten := by
  have := resolved_static E P (SM.GetMaterial Sec.MaterialIndex) L Cs hs hm []
  simpa [sectionContribs] using this

/-- With static-mesh components only, the reconstruction completes exactly when every
component has a mesh and the visits of every component, taken alone, meet no fault. -/
theorem Reconstruct_ok_static_iff {V T B : Type} (E : EngineMath V T B) (SM : UStaticMesh B)
    (P : V) (Cs : List (UPrimitiveComponent T B)) (hs : allStatic Cs) :
    (∃ Map, Reconstruct E SM P Cs = .ok Map) ↔
      meshesOk Cs ∧ ∀ C ∈ Cs, ∀ v ∈ componentVisits 0 C, v.Ok (collectSections SM) := by
  constructor
  · rintro ⟨Map, h⟩
    obtain ⟨hm, hv, -, -⟩ := (Reconstruct_eq_ok_iff E SM P Cs Map).1 h
    exact ⟨hm, (allVisits_Ok_iff 0 Cs _).1 hv⟩
  · rintro ⟨hm, hv⟩
    exact ⟨_, (Reconstruct_eq_ok_iff E SM P Cs _).2
      ⟨hm, (allVisits_Ok_iff 0 Cs _).2 hv,
        fun L _ _ _ _ => lookupsOk_of_static E P Cs hs hm _ L, rfl⟩⟩

theorem matchingCounts_eq_nil {T B : Type} (M : Option UMaterialInterface) (L : Nat)
    (X : UPrimitiveComponent T B) (MC : UStaticMeshComponent T B) (Mesh : UStaticMesh B)
    (hMC : X.AsStaticMeshComponent = some MC) (hMesh : MC.StaticMesh = some Mesh)
    (hX : Mesh.GetNumSections L = 0) : matchingCounts M L X = [] := by
  unfold UStaticMesh.GetNumSections at hX
  have : Mesh.LODResources.getD L [] = [] := List.length_eq_zero.1 hX
  unfold matchingCounts sourceSections
  simp only [hMC, hMesh, this, List.map_nil, List.filter_nil]

theorem contributions_eq_nil {V T B : Type} (E : EngineMath V T B) (P : V)
    (M : Option UMaterialInterface) (L : Nat) (X : UPrimitiveComponent T B)
    (h : matchingCounts M L X = []) : contributions E P M L X = [] := by
  unfold contributions
  cases boundsOf E P X with
  | none => rfl
  | some b => simp [h]

/-- With static-mesh components only, a source without matching sections at LOD `L` can be
left out of the selection without changing the contributions to the sections of `L`. -/
theorem sectionContribs_remove {V T B : Type} (E : EngineMath V T B) (SM : UStaticMesh B)
    (P : V) (Before After : List (UPrimitiveComponent T B)) (X : UPrimitiveComponent T B)
    (L : Nat) (hs : allStatic (Before ++ X :: After)) (hm : meshesOk (Before ++ X :: After))
    (hX : ∀ M, matchingCounts M L X = []) :
    sectionContribs E SM P (Before ++ X :: After) L = sectionContribs E SM P (Before ++ After) L := by
  funext Sec
  have hs1 : allStatic (Before ++ After) := by
    intro C hC
    apply hs C
    rcases List.mem_append.1 hC with h | h
    · exact List.mem_append_left _ h
    · exact List.mem_append_right _ (List.mem_cons_of_mem _ h)
  have hm1 : meshesOk (Before ++ After) := by
    intro C hC
    apply hm C
    rcases List.mem_append.1 hC with h | h
    · exact List.mem_append_left _ h
    · exact List.mem_append_right _ (List.mem_cons_of_mem _ h)
  rw [sectionContribs_static E SM P _ hs hm, sectionContribs_static E SM P _ hs1 hm1]
  simp [contributions_eq_nil E P _ L X (hX _)]

theorem savedAt_congr {V T B : Type} (E : EngineMath V T B) (SM : UStaticMesh B) (P : V)
    (Cs Ds : List (UPrimitiveComponent T B)) (Map Map1 : FGigaBatchMap B)
    (h : Reconstruct E SM P Cs = .ok Map) (h1 : Reconstruct E SM P Ds = .ok Map1) (L : Nat)
    (heq : sectionContribs E SM P Cs L = sectionContribs E SM P Ds L) (s : Nat) :
    savedAt Map L s = savedAt Map1 L s := by
  rw [savedAt_Reconstruct E SM P Cs Map h, savedAt_Reconstruct E SM P Ds Map1 h1, heq]

theorem lodVisits_append {T B : Type} (ci : Int) (mc : UStaticMeshComponent T B) (L0 : Nat)
    (Xs Ys : List (List FStaticMeshSection)) :
    lodVisits ci mc L0 (Xs ++ Ys) =
      lodVisits ci mc L0 Xs ++ lodVisits ci mc (L0 + Xs.length) Ys := by
  induction Xs generalizing L0 with
  | nil => simp [lodVisits]
  | cons Ss Rest ih =>
    have h1 : L0 + 1 + Rest.length = L0 + (Rest.length + 1) := by omega
    show lodVisits ci mc L0 (Ss :: (Rest ++ Ys)) = _
    rw [lodVisits, lodVisits, ih, List.append_assoc, List.length_cons, h1]

theorem lodVisits_congr {T B : Type} (ci : Int) (mc mc1 : UStaticMeshComponent T B)
    (h : mc.GetMaterial = mc1.GetMaterial) (L0 : Nat) (LODs : List (List FStaticMeshSection)) :
    lodVisits ci mc L0 LODs = lodVisits ci mc1 L0 LODs := by
  induction LODs generalizing L0 with
  | nil => rfl
  | cons Ss Rest ih =>
    simp only [lodVisits, ih]
    congr 1
    apply List.map_congr_left
    intro S _
    simp [mkVisit, h]

/-- Deleting a section from the mesh of a component deletes its visit and nothing else. -/
theorem componentVisits_delete {T B : Type} (i : Nat) (C : UPrimitiveComponent T B)
    (MC : UStaticMeshComponent T B) (Mesh : UStaticMesh B)
    (lp ls : List (List FStaticMeshSection)) (sp ss : List FStaticMeshSection)
    (Sec : FStaticMeshSection) (hMC : C.AsStaticMeshComponent = some MC)
    (hMesh : MC.StaticMesh = some Mesh) (hLODs : Mesh.LODResources = lp ++ (sp ++ Sec :: ss) :: ls) :
    ∃ P1 P2 : List Visit,
      componentVisits i C = P1 ++ mkVisit (i : Int) MC lp.length Sec :: P2 ∧
      componentVisits i (withLODs C MC Mesh (lp ++ (sp ++ ss) :: ls)) = P1 ++ P2 := by
  refine ⟨lodVisits (i : Int) MC 0 lp ++ sp.map (mkVisit (i : Int) MC lp.length),
    ss.map (mkVisit (i : Int) MC lp.length) ++ lodVisits (i : Int) MC (lp.length + 1) ls, ?_, ?_⟩
  · simp only [componentVisits, hMC, hMesh, hLODs, lodVisits_append, lodVisits, Nat.zero_add,
      List.map_append, List.map_cons, List.append_assoc, List.cons_append]
  · have hc : lodVisits (i : Int)
        ({ MC with StaticMesh := some { Mesh with LODResources := lp ++ (sp ++ ss) :: ls } } :
          UStaticMeshComponent T B) 0 (lp ++ (sp ++ ss) :: ls) =
        lodVisits (i : Int) MC 0 (lp ++ (sp ++ ss) :: ls) := by
      apply lodVisits_congr
      rfl
    simp only [componentVisits, withLODs, hc, lodVisits_append, lodVisits, Nat.zero_add,
      List.map_append, List.append_assoc]

theorem componentBounds_withLODs {V T B : Type} (E : EngineMath V T B) (P : V)
    (C : UPrimitiveComponent T B) (MC : UStaticMeshComponent T B) (Mesh : UStaticMesh B)
    (LODs : List (List FStaticMeshSection)) (hMC : C.AsStaticMeshComponent = some MC)
    (hMesh : MC.StaticMesh = some Mesh) :
    componentBounds E P (withLODs C MC Mesh LODs) = componentBounds E P C := by
  simp only [componentBounds, withLODs, hMC, hMesh]
  rfl

theorem recordsAt_cons (M : Option UMaterialInterface) (L : Nat) (v : Visit) (vs : List Visit) :
    recordsAt M L (v :: vs) =
      (if v.LODIndex = L then [recordOf M v] else []) ++ recordsAt M L vs := by
  unfold recordsAt
  by_cases h : v.LODIndex = L <;> simp [List.filter_cons, h]

/-- A visit whose material matches no merged section of its LOD leaves no trace in the
real contributions of any merged section. -/
theorem rows_delete {B : Type} (SB : List B) (SM : UStaticMesh B) (P1 P2 : List Visit)
    (v : Visit)
    (hno : ∀ MSec ∈ SM.LODResources.getD v.LODIndex [],
      sameName v.Material (SM.GetMaterial MSec.MaterialIndex) = false) :
    rows SB SM (P1 ++ v :: P2) = rows SB SM (P1 ++ P2) := by
  apply List.ext_getElem?
  intro L
  simp only [rows, List.getElem?_mapIdx]
  cases hS : SM.LODResources[L]? with
  | none => rfl
  | some Secs =>
    simp only [Option.map_some', Option.some.injEq]
    apply List.map_congr_left
    intro MSec hMSec
    rw [recordsAt_append, recordsAt_append, recordsAt_cons, resolved_append, resolved_append,
      resolved_append]
    congr 1
    by_cases hL : v.LODIndex = L
    · have hmem : MSec ∈ SM.LODResources.getD v.LODIndex [] := by
        rw [hL, List.getD_eq_getElem?_getD, hS]
        exact hMSec
      have hrec : recordOf (SM.GetMaterial MSec.MaterialIndex) v = (INDEX_NONE, 0) := by
        have := hno MSec hmem
        unfold sameName at this
        simp only [decide_eq_false_iff_not] at this
        simp [recordOf, this]
      simp [hL, hrec, resolved, resolveRecord]
    · simp [hL, resolved]

/-- A run of `RunMerge` returns exactly when the merge returned one asset, a static mesh,
and the reconstruction completes; it then returns true with the reconstructed batch map. -/
theorem RunMerge_eq_ok_iff {V T B : Type} (E : EngineMath V T B)
    (Merge : List (UPrimitiveComponent T B) → List (UObject B) × V) (P0 : V)
    (Cs : List (UPrimitiveComponent T B)) (out : Bool × FGigaBatchMap B) :
    RunMerge E Merge P0 Cs = .ok out ↔
      ∃ SM Pivot Map, MergeComponents Merge P0 Cs = .ok ([.StaticMesh SM], Pivot) ∧
        Reconstruct E SM Pivot Cs = .ok Map ∧ out = (true, Map) := by
  unfold RunMerge
  cases hM : MergeComponents Merge P0 Cs with
  | error e => simp
  | ok res =>
    obtain ⟨Assets, Pivot⟩ := res
    dsimp only
    cases Assets with
    | nil => simp
    | cons Asset Rest =>
      cases Rest with
      | nil =>
        cases Asset with
        | StaticMesh SM =>
          dsimp only
          cases hR : Reconstruct E SM Pivot Cs with
          | error e =>
            simp only [Except.ok.injEq, Prod.mk.injEq, List.cons.injEq, UObject.StaticMesh.injEq,
              and_true, false_iff, not_exists, not_and, reduceCtorEq]
            rintro SM1 P1 Map ⟨rfl, rfl⟩ h
            rw [hR] at h
            cases h
          | ok Map =>
            simp only [Except.ok.injEq, Prod.mk.injEq, List.cons.injEq, UObject.StaticMesh.injEq,
              and_true]
            constructor
            · rintro rfl
              exact ⟨SM, Pivot, Map, ⟨rfl, rfl⟩, hR, rfl⟩
            · rintro ⟨SM1, P1, Map1, ⟨rfl, rfl⟩, h, rfl⟩
              rw [hR] at h
              cases h
              rfl
        | Other => simp
      | cons A2 Rest2 => simp

/-- The batch map of a run of `RunMerge` that returns is the one the reconstruction computes
for the static mesh and the pivot that the merge returned. -/
theorem Reconstruct_of_RunMerge {V T B : Type} (E : EngineMath V T B)
    (Merge : List (UPrimitiveComponent T B) → List (UObject B) × V) (P0 : V)
    (Cs : List (UPrimitiveComponent T B)) (SM : UStaticMesh B) (Pivot : V)
    (out : Bool × FGigaBatchMap B)
    (hmerge : MergeComponents Merge P0 Cs = .ok ([.StaticMesh SM], Pivot))
    (hrun : RunMerge E Merge P0 Cs = .ok out) :
    Reconstruct E SM Pivot Cs = .ok out.2 ∧ out.1 = true := by
  obtain ⟨SM1, P1, Map, h1, h2, rfl⟩ := (RunMerge_eq_ok_iff E Merge P0 Cs out).1 hrun
  rw [hmerge] at h1
  simp only [Except.ok.injEq, Prod.mk.injEq, List.cons.injEq, UObject.StaticMesh.injEq,
    and_true] at h1
  obtain ⟨rfl, rfl⟩ := h1
  exact ⟨h2, rfl⟩

/-! ## The claims -/

/-- C1 as stated fails. In scenario B the batch that `RunMerge` saves for section 1 of LOD 0
starts at `FirstIndex` 2000, not 0: the counter is not reset between the sections of a LOD.
And in a LOD whose triangle counts add up beyond `2 ^ 32` the second element of the batch of
section 1 starts at 1, not at the previous `FirstIndex` plus the previous `NumTriangles`: the
counter is a `uint32`. -/
theorem contiguity_counterexample :
    (RunMerge lineMath (mergeTo sceneB_merged) 0 sceneB_sources = .ok (true, sceneB_map) ∧
      savedAt sceneB_map 0 1 = [⟨[⟨9, 2000, 500⟩]⟩] ∧
      ¬ (∀ Batch ∈ savedAt sceneB_map 0 1, ∀ e, Batch.Elements[0]? = some e →
          e.FirstIndex = 0)) ∧
    (RunMerge lineMath (mergeTo sceneW_merged) 0 sceneW_sources = .ok (true, sceneW_map) ∧
      savedAt sceneW_map 0 1 = [⟨[⟨5, 2147483649, 2147483648⟩, ⟨9, 1, 1⟩]⟩] ∧
      ¬ (∀ Batch ∈ savedAt sceneW_map 0 1, ∀ i e e1, Batch.Elements[i]? = some e →
          Batch.Elements[i + 1]? = some e1 →
          e1.FirstIndex = e.FirstIndex + e.NumTriangles)) := by
  refine ⟨⟨rfl, rfl, ?_⟩, rfl, rfl, ?_⟩
  · intro h
    have := h ⟨[⟨9, 2000, 500⟩]⟩ (by decide) ⟨9, 2000, 500⟩ rfl
    exact absurd this (by decide)
  · intro h
    have := h ⟨[⟨5, 2147483649, 2147483648⟩, ⟨9, 1, 1⟩]⟩ (by decide) 0
      ⟨5, 2147483649, 2147483648⟩ ⟨9, 1, 1⟩ rfl rfl
    exact absurd this (by decide)

/-- C1 amended. In every batch saved by a run of `RunMerge` that returns, every later
element's `FirstIndex` is the previous element's `FirstIndex` plus the previous element's
`NumTriangles` modulo `2 ^ 32`. The first element's `FirstIndex` continues where the batch
of the previous section of the same LOD ended: it is the sum, modulo `2 ^ 32`, of
`NumTriangles` over all elements of the batches of the earlier sections of its LOD. So it
is 0 in the batch of section 0 of every LOD and whenever the batches of the earlier sections
of its LOD are all empty. -/
theorem contiguity_within_batch {V T B : Type} (E : EngineMath V T B)
    (Merge : List (UPrimitiveComponent T B) → List (UObject B) × V) (Pivot0 : V)
    (MergingComponents : List (UPrimitiveComponent T B)) (Result : Bool × FGigaBatchMap B)
    (hrun : RunMerge E Merge Pivot0 MergingComponents = .ok Result)
    (L s : Nat) (Batch : FGigaBatch B) (hB : Batch ∈ savedAt Result.2 L s) :
    (∀ i e e1, Batch.Elements[i]? = some e → Batch.Elements[i + 1]? = some e1 →
      e1.FirstIndex = (e.FirstIndex + e.NumTriangles) % 2 ^ 32) ∧
    (∀ e, Batch.Elements[0]? = some e →
      e.FirstIndex =
        ((elementsBefore Result.2 L s).map fun x => x.NumTriangles).sum % 2 ^ 32) ∧
    (s = 0 → ∀ e, Batch.Elements[0]? = some e → e.FirstIndex = 0) ∧
    (elementsBefore Result.2 L s = [] → ∀ e, Batch.Elements[0]? = some e → e.FirstIndex = 0) := by
  obtain ⟨StaticMesh, Pivot, Map, -, hrec, rfl⟩ :=
    (RunMerge_eq_ok_iff E Merge Pivot0 MergingComponents Result).1 hrun
  dsimp only at hB ⊢
  have hsaved := savedAt_Reconstruct E StaticMesh Pivot MergingComponents Map hrec L s
  cases h1 : StaticMesh.LODResources[L]? with
  | none => simp [hsaved, h1] at hB
  | some Secs =>
    cases h2 : Secs[s]? with
    | none => simp [hsaved, h1, h2] at hB
    | some Sec =>
      simp only [hsaved, h1, h2, Option.some_bind, Option.map_some', Option.toList_some,
        List.mem_singleton] at hB
      subst hB
      have hle : s ≤ Secs.length := Nat.le_of_lt (List.getElem?_eq_some.1 h2).1
      have hpre := elementsBefore_Reconstruct E StaticMesh Pivot MergingComponents Map hrec L s
        Secs h1 hle
      obtain ⟨c0, c1⟩ := pack_contiguous (sectionContribs E StaticMesh Pivot MergingComponents L Sec)
        (advance ((Secs.take s).map
          (sectionContribs E StaticMesh Pivot MergingComponents L)).flatten 0)
      have hfirst : ∀ e,
          (pack (sectionContribs E StaticMesh Pivot MergingComponents L Sec)
            (advance ((Secs.take s).map
              (sectionContribs E StaticMesh Pivot MergingComponents L)).flatten 0))[0]? = some e →
          e.FirstIndex =
            ((elementsBefore Map L s).map fun x => x.NumTriangles).sum % 2 ^ 32 := by
        intro e he
        rw [hpre, c0 e he, advance_zero, pack_map_NumTriangles]
      have hempty : elementsBefore Map L s = [] → ∀ e,
          (pack (sectionContribs E StaticMesh Pivot MergingComponents L Sec)
            (advance ((Secs.take s).map
              (sectionContribs E StaticMesh Pivot MergingComponents L)).flatten 0))[0]? = some e →
          e.FirstIndex = 0 := by
        intro hnil e he
        rw [hfirst e he, hnil]
        rfl
      refine ⟨c1, hfirst, ?_, hempty⟩
      rintro rfl
      exact hempty (by simp [elementsBefore])

/-- Witness of the amended C1. On scenario A the two cubes give the elements
{start 0, count 1000} and {start 1000, count 1000}; on scenario B the batch of section 1
starts at 2000, where the batch of section 0 ends. -/
theorem contiguity_within_batch_witness :
    RunMerge lineMath (mergeTo sceneA_merged) 0 sceneA_sources = .ok (true, sceneA_map) ∧
    savedAt sceneA_map 0 0 = [⟨[⟨-5, 0, 1000⟩, ⟨5, 1000, 1000⟩]⟩] ∧
    ((∀ i e e1, [(⟨-5, 0, 1000⟩ : FGigaBatchElement Int), ⟨5, 1000, 1000⟩][i]? = some e →
        [(⟨-5, 0, 1000⟩ : FGigaBatchElement Int), ⟨5, 1000, 1000⟩][i + 1]? = some e1 →
        e1.FirstIndex = (e.FirstIndex + e.NumTriangles) % 2 ^ 32) ∧
      (∀ e, [(⟨-5, 0, 1000⟩ : FGigaBatchElement Int), ⟨5, 1000, 1000⟩][0]? = some e →
        e.FirstIndex =
          ((elementsBefore sceneA_map 0 0).map fun x => x.NumTriangles).sum % 2 ^ 32) ∧
      ((0 : Nat) = 0 → ∀ e, [(⟨-5, 0, 1000⟩ : FGigaBatchElement Int), ⟨5, 1000, 1000⟩][0]? = some e →
        e.FirstIndex = 0) ∧
      (elementsBefore sceneA_map 0 0 = [] →
        ∀ e, [(⟨-5, 0, 1000⟩ : FGigaBatchElement Int), ⟨5, 1000, 1000⟩][0]? = some e →
        e.FirstIndex = 0)) ∧
    RunMerge lineMath (mergeTo sceneB_merged) 0 sceneB_sources = .ok (true, sceneB_map) ∧
    savedAt sceneB_map 0 1 = [⟨[⟨9, 2000, 500⟩]⟩] ∧
    ((elementsBefore sceneB_map 0 1).map fun x => x.NumTriangles).sum % 2 ^ 32 = 2000 ∧
    (∀ e, [(⟨9, 2000, 500⟩ : FGigaBatchElement Int)][0]? = some e →
      e.FirstIndex =
        ((elementsBefore sceneB_map 0 1).map fun x => x.NumTriangles).sum % 2 ^ 32) :=
  ⟨rfl, rfl,
    contiguity_within_batch lineMath (mergeTo sceneA_merged) 0 sceneA_sources (true, sceneA_map)
      rfl 0 0 ⟨[⟨-5, 0, 1000⟩, ⟨5, 1000, 1000⟩]⟩ (by decide),
    rfl, rfl, by decide,
    (contiguity_within_batch lineMath (mergeTo sceneB_merged) 0 sceneB_sources (true, sceneB_map)
      rfl 0 1 ⟨[⟨9, 2000, 500⟩]⟩ (by decide)).2.1⟩

/-- C3 evaluated at a failing input. The selection is a component that is no static-mesh
component, then a static-mesh component with pivot-relative bounds `-5` whose section
matches the merged section, then a static-mesh component with bounds `5` that contributes
nothing (its LOD has no sections; or, in the second scene, its material is not in the merged
mesh). The run completes and the only element, produced by the section of the second
component, carries the bounds `5` of the third: `SubBounds` grows only for static-mesh
components while `ComponentIndex` counts all components. -/
theorem bounds_of_other_component :
    (Reconstruct lineMath sceneL_merged 0 sceneM_sources = .ok [⟨0, 0, ⟨[⟨5, 0, 1000⟩]⟩⟩] ∧
      sceneM_sources.map (boundsOf lineMath 0) = [none, some (-5), some 5] ∧
      sceneM_sources.map (matchingCounts (sceneL_merged.GetMaterial 1) 0) = [[], [1000], []]) ∧
    (Reconstruct lineMath sceneL_merged 0 sceneN_sources = .ok [⟨0, 0, ⟨[⟨5, 0, 1000⟩]⟩⟩] ∧
      sceneN_sources.map (boundsOf lineMath 0) = [none, some (-5), some 5] ∧
      sceneN_sources.map (matchingCounts (sceneL_merged.GetMaterial 1) 0) = [[], [1000], []]) :=
  ⟨⟨rfl, by decide, by decide⟩, rfl, by decide, by decide⟩

/-- C4 (provenance and order). In a run that completes, the batch saved for a merged section
(LOD `L`, section `s`, material `M`) has one element per source section at LOD `L` whose
effective material has the name of `M`, and no other element: the elements' `NumTriangles`,
in order, are the triangle counts of those source sections enumerated in source input order
and within one source in section order, that is the concatenation over the source list of
the per-source blocks `matchingCounts M L`. A block depends on the source alone, so for a
permuted source list the blocks of the batch are permuted the same way. -/
theorem provenance_and_order {V T B : Type} (E : EngineMath V T B) (StaticMesh : UStaticMesh B)
    (Pivot : V) (MergingComponents : List (UPrimitiveComponent T B)) (Map : FGigaBatchMap B)
    (hrun : Reconstruct E StaticMesh Pivot MergingComponents = .ok Map)
    (L s : Nat) (Sections : List FStaticMeshSection) (Section : FStaticMeshSection)
    (hL : StaticMesh.LODResources[L]? = some Sections) (hs : Sections[s]? = some Section) :
    (∃ Batch, savedAt Map L s = [Batch] ∧
      Batch.Elements.map (fun e => e.NumTriangles) =
        (MergingComponents.map
          (matchingCounts (StaticMesh.GetMaterial Section.MaterialIndex) L)).flatten) ∧
    (∀ (Permuted : List (UPrimitiveComponent T B)) (Map1 : FGigaBatchMap B),
      Permuted.Perm MergingComponents →
      Reconstruct E StaticMesh Pivot Permuted = .ok Map1 →
      ∃ Batch1, savedAt Map1 L s = [Batch1] ∧
        Batch1.Elements.map (fun e => e.NumTriangles) =
          (Permuted.map
            (matchingCounts (StaticMesh.GetMaterial Section.MaterialIndex) L)).flatten ∧
        (Permuted.map (matchingCounts (StaticMesh.GetMaterial Section.MaterialIndex) L)).Perm
          (MergingComponents.map
            (matchingCounts (StaticMesh.GetMaterial Section.MaterialIndex) L))) := by
  refine ⟨batch_counts E StaticMesh Pivot MergingComponents Map hrun L s Sections Section hL hs,
    ?_⟩
  intro Permuted Map1 hperm hrun1
  obtain ⟨Batch1, h1, h2⟩ :=
    batch_counts E StaticMesh Pivot Permuted Map1 hrun1 L s Sections Section hL hs
  exact ⟨Batch1, h1, h2, hperm.map _⟩

/-- Witness of C4 on scenario B: the section of material 1 has two elements, from sources 1
and 2 in that order, and the section of material 2 has one element, from source 3; with the
first two sources exchanged the two elements of the first batch are exchanged. -/
theorem provenance_and_order_witness :
    Reconstruct lineMath sceneB_merged 0 sceneB_sources = .ok sceneB_map ∧
    savedAt sceneB_map 0 0 = [⟨[⟨-5, 0, 1200⟩, ⟨5, 1200, 800⟩]⟩] ∧
    savedAt sceneB_map 0 1 = [⟨[⟨9, 2000, 500⟩]⟩] ∧
    (sceneB_sources.map (matchingCounts (sceneB_merged.GetMaterial 1) 0)).flatten =
      [1200, 800] ∧
    Reconstruct lineMath sceneB_merged 0 sceneB_permuted = .ok sceneB_permuted_map ∧
    savedAt sceneB_permuted_map 0 0 = [⟨[⟨5, 0, 800⟩, ⟨-5, 800, 1200⟩]⟩] ∧
    (∃ Batch, savedAt sceneB_map 0 0 = [Batch] ∧
      Batch.Elements.map (fun e => e.NumTriangles) =
        (sceneB_sources.map (matchingCounts (sceneB_merged.GetMaterial 1) 0)).flatten) ∧
    (∃ Batch1, savedAt sceneB_permuted_map 0 0 = [Batch1] ∧
      Batch1.Elements.map (fun e => e.NumTriangles) =
        (sceneB_permuted.map (matchingCounts (sceneB_merged.GetMaterial 1) 0)).flatten ∧
      (sceneB_permuted.map (matchingCounts (sceneB_merged.GetMaterial 1) 0)).Perm
        (sceneB_sources.map (matchingCounts (sceneB_merged.GetMaterial 1) 0))) :=
  ⟨rfl, rfl, rfl, by decide, rfl, rfl,
    (provenance_and_order lineMath sceneB_merged 0 sceneB_sources sceneB_map rfl 0 0
      [⟨1, 2000⟩, ⟨2, 500⟩] ⟨1, 2000⟩ rfl rfl).1,
    (provenance_and_order lineMath sceneB_merged 0 sceneB_sources sceneB_map rfl 0 0
      [⟨1, 2000⟩, ⟨2, 500⟩] ⟨1, 2000⟩ rfl rfl).2 sceneB_permuted sceneB_permuted_map
      (List.Perm.swap _ _ _) rfl⟩

/-- C5 (material filtering). In a run that completes, a source section whose effective
material has the name of no merged section of its LOD is the origin of no element of any
saved batch: with that section deleted from its mesh the run completes with the very same
batch map, at every LOD and section. In particular, when no source section has the name of
a merged section's material, the batch saved for that merged section is empty. -/
theorem material_filtering {V T B : Type} (E : EngineMath V T B) (StaticMesh : UStaticMesh B)
    (Pivot : V) (MergingComponents : List (UPrimitiveComponent T B)) (Map : FGigaBatchMap B)
    (hrun : Reconstruct E StaticMesh Pivot MergingComponents = .ok Map) :
    (∀ (Before After : List (UPrimitiveComponent T B)) (C : UPrimitiveComponent T B)
        (MC : UStaticMeshComponent T B) (Mesh : UStaticMesh B)
        (lp ls : List (List FStaticMeshSection)) (sp ss : List FStaticMeshSection)
        (Section : FStaticMeshSection),
      MergingComponents = Before ++ C :: After →
      C.AsStaticMeshComponent = some MC → MC.StaticMesh = some Mesh →
      Mesh.LODResources = lp ++ (sp ++ Section :: ss) :: ls →
      (∀ Merged ∈ StaticMesh.LODResources.getD lp.length [],
        sameName (MC.GetMaterial Section.MaterialIndex)
          (StaticMesh.GetMaterial Merged.MaterialIndex) = false) →
      Reconstruct E StaticMesh Pivot
        (Before ++ withLODs C MC Mesh (lp ++ (sp ++ ss) :: ls) :: After) = .ok Map) ∧
    (∀ (L s : Nat) (Sections : List FStaticMeshSection) (Merged : FStaticMeshSection),
      StaticMesh.LODResources[L]? = some Sections → Sections[s]? = some Merged →
      (∀ C ∈ MergingComponents,
        matchingCounts (StaticMesh.GetMaterial Merged.MaterialIndex) L C = []) →
      savedAt Map L s = [⟨[]⟩]) := by
  constructor
  · intro Before After C MC Mesh lp ls sp ss Sec hCs hMC hMesh hLODs hno
    subst hCs
    obtain ⟨hm, hv, hl, hMap⟩ := (Reconstruct_eq_ok_iff E StaticMesh Pivot _ Map).1 hrun
    obtain ⟨P1, P2, hP, hP1⟩ :=
      componentVisits_delete Before.length C MC Mesh lp ls sp ss Sec hMC hMesh hLODs
    have hvis : allVisits 0 (Before ++ C :: After) =
        (allVisits 0 Before ++ P1) ++ mkVisit (Before.length : Int) MC lp.length Sec ::
          (P2 ++ allVisits (Before.length + 1) After) := by
      rw [allVisits_append, allVisits_cons, Nat.zero_add, hP]
      simp
    have hvis1 : allVisits 0 (Before ++ withLODs C MC Mesh (lp ++ (sp ++ ss) :: ls) :: After) =
        (allVisits 0 Before ++ P1) ++ (P2 ++ allVisits (Before.length + 1) After) := by
      rw [allVisits_append, allVisits_cons, Nat.zero_add, hP1]
      simp
    have hb : allBounds E Pivot (Before ++ withLODs C MC Mesh (lp ++ (sp ++ ss) :: ls) :: After) =
        allBounds E Pivot (Before ++ C :: After) := by
      rw [allBounds_append, allBounds_cons, componentBounds_withLODs E Pivot C MC Mesh _ hMC hMesh,
        allBounds_append, allBounds_cons]
    have hsub : ∀ v, v ∈ (allVisits 0 Before ++ P1) ++ (P2 ++ allVisits (Before.length + 1) After) →
        v ∈ allVisits 0 (Before ++ C :: After) := by
      intro v hv1
      rw [hvis]
      rcases List.mem_append.1 hv1 with h | h
      · exact List.mem_append_left _ h
      · exact List.mem_append_right _ (List.mem_cons_of_mem _ h)
    apply (Reconstruct_eq_ok_iff E StaticMesh Pivot _ Map).2
    refine ⟨?_, ?_, ?_, ?_⟩
    · intro C1 hC1 MC1 hMC1
      rcases List.mem_append.1 hC1 with h | h
      · exact hm C1 (List.mem_append_left _ h) MC1 hMC1
      · rcases List.mem_cons.1 h with rfl | h
        · simp only [withLODs, Option.some.injEq] at hMC1
          subst hMC1
          simp
        · exact hm C1 (List.mem_append_right _ (List.mem_cons_of_mem _ h)) MC1 hMC1
    · intro v hv1
      rw [hvis1] at hv1
      exact hv v (hsub v hv1)
    · intro L Secs hS MSec hMSec r hr
      rw [hb]
      apply hl L Secs hS MSec hMSec r
      rw [hvis1] at hr
      unfold recordsAt at hr ⊢
      obtain ⟨v, hv1, rfl⟩ := List.mem_map.1 hr
      rw [List.mem_filter] at hv1
      exact List.mem_map_of_mem _ (List.mem_filter.2 ⟨hsub v hv1.1, hv1.2⟩)
    · rw [hMap, hb, hvis, hvis1]
      rw [rows_delete _ StaticMesh _ _ (mkVisit (Before.length : Int) MC lp.length Sec) hno]
  · intro L s Secs MSec hL hs hnone
    obtain ⟨Batch, h1, h2⟩ :=
      batch_counts E StaticMesh Pivot MergingComponents Map hrun L s Secs MSec hL hs
    have hflat : (MergingComponents.map
        (matchingCounts (StaticMesh.GetMaterial MSec.MaterialIndex) L)).flatten = [] := by
      rw [List.flatten_eq_nil_iff]
      intro l hl
      obtain ⟨C, hC, rfl⟩ := List.mem_map.1 hl
      exact hnone C hC
    rw [hflat, List.map_eq_nil_iff] at h2
    rw [h1]
    cases Batch
    simp only at h2
    rw [h2]

/-- Witness of C5: the section of the second source has material 2, which the merged mesh
does not have; the run saves the same batch map with that section deleted. -/
theorem material_filtering_witness :
    Reconstruct lineMath sceneL_merged 0 sceneD_sources = .ok sceneD_map ∧
    (∀ Merged ∈ sceneL_merged.LODResources.getD 0 [],
      sameName (some (⟨2⟩ : UMaterialInterface))
        (sceneL_merged.GetMaterial Merged.MaterialIndex) = false) ∧
    Reconstruct lineMath sceneL_merged 0
      ([sourceOf (-5) 1 [[⟨0, 1000⟩]]] ++
        withLODs (sourceOf 5 2 [[⟨0, 300⟩]])
          { StaticMesh := some (meshOf 2 [[⟨0, 300⟩]]), ComponentTransform := 5,
            GetMaterial := fun _ => some ⟨2⟩ }
          (meshOf 2 [[⟨0, 300⟩]]) ([] ++ ([] ++ []) :: []) :: []) = .ok sceneD_map :=
  have hno : ∀ Merged ∈ sceneL_merged.LODResources.getD 0 [],
      sameName (some (⟨2⟩ : UMaterialInterface))
        (sceneL_merged.GetMaterial Merged.MaterialIndex) = false := by decide
  ⟨rfl, hno,
    (material_filtering lineMath sceneL_merged 0 sceneD_sources sceneD_map rfl).1
      [sourceOf (-5) 1 [[⟨0, 1000⟩]]] [] (sourceOf 5 2 [[⟨0, 300⟩]])
      { StaticMesh := some (meshOf 2 [[⟨0, 300⟩]]), ComponentTransform := 5,
        GetMaterial := fun _ => some ⟨2⟩ }
      (meshOf 2 [[⟨0, 300⟩]]) [] [] [] [] ⟨0, 300⟩ rfl rfl rfl rfl hno⟩

/-- C6 as stated fails. A source whose mesh has no sections at LOD 0 but a section at a
LOD that the merged mesh does not have stops the run at `Resources[LODIndex]`, while the run
on the remaining source completes. And when a component that is no static-mesh component
is selected first, `SubBounds` is shifted: the batch of LOD 0 carries the bounds 5 with the
source that has no sections and the bounds 9 without it, and a run that completes with that
source ends out of range without it. -/
theorem missing_lod_counterexample :
    ((meshOf 1 [[], [⟨0, 500⟩]]).GetNumSections 0 = 0 ∧
      Reconstruct lineMath sceneL_merged 0 (sceneX_before ++ sceneX_missing :: []) =
        .error .OutOfRange ∧
      Reconstruct lineMath sceneL_merged 0 (sceneX_before ++ []) =
        .ok [⟨0, 0, ⟨[⟨-5, 0, 1000⟩]⟩⟩]) ∧
    ((meshOf 1 [[]]).GetNumSections 0 = 0 ∧
      Reconstruct lineMath sceneL_merged 0 (sceneY_before ++ sceneY_missing :: sceneY_after) =
        .ok [⟨0, 0, ⟨[⟨5, 0, 1000⟩]⟩⟩] ∧
      Reconstruct lineMath sceneL_merged 0 (sceneY_before ++ sceneY_after) =
        .ok [⟨0, 0, ⟨[⟨9, 0, 1000⟩]⟩⟩] ∧
      Reconstruct lineMath sceneL_merged 0 (sceneY_before ++ sceneY_missing :: []) =
        .ok [⟨0, 0, ⟨[⟨5, 0, 1000⟩]⟩⟩] ∧
      Reconstruct lineMath sceneL_merged 0 (sceneY_before ++ []) = .error .OutOfRange) :=
  ⟨⟨by decide, rfl, rfl⟩, by decide, rfl, rfl, rfl, rfl⟩

/-- C6 amended (missing LOD, scenario C). Let the selection consist of static-mesh components and
let the mesh of the source `X` have no sections at LOD `L` (its LOD count is at most `L`, or
LOD `L` has zero sections). Then `X` has no contribution at `L` for any merged material;
whenever the run with `X` completes, the run on the remaining sources completes and saves
the same batch under every key of LOD `L`, element for element; and the missing LOD stops
no run: when the run on the remaining sources completes and `X` taken alone meets no fault,
the run with `X` completes, again with the same batches at LOD `L`. -/
theorem missing_lod_same_batches {V T B : Type} (E : EngineMath V T B) (StaticMesh : UStaticMesh B)
    (Pivot : V) (Before After : List (UPrimitiveComponent T B)) (X : UPrimitiveComponent T B)
    (MeshComponent : UStaticMeshComponent T B) (Mesh : UStaticMesh B) (L : Nat)
    (hstatic : allStatic (Before ++ X :: After))
    (hMC : X.AsStaticMeshComponent = some MeshComponent)
    (hMesh : MeshComponent.StaticMesh = some Mesh)
    (hX : Mesh.GetNumSections L = 0) :
    (∀ M, matchingCounts M L X = [] ∧ contributions E Pivot M L X = []) ∧
    (∀ Map, Reconstruct E StaticMesh Pivot (Before ++ X :: After) = .ok Map →
      ∃ Map1, Reconstruct E StaticMesh Pivot (Before ++ After) = .ok Map1 ∧
        ∀ s, savedAt Map L s = savedAt Map1 L s) ∧
    (∀ Map1 MapX, Reconstruct E StaticMesh Pivot (Before ++ After) = .ok Map1 →
      Reconstruct E StaticMesh Pivot [X] = .ok MapX →
      ∃ Map, Reconstruct E StaticMesh Pivot (Before ++ X :: After) = .ok Map ∧
        ∀ s, savedAt Map L s = savedAt Map1 L s) := by
  have hnil : ∀ M, matchingCounts M L X = [] := fun M =>
    matchingCounts_eq_nil M L X MeshComponent Mesh hMC hMesh hX
  have hs1 : allStatic (Before ++ After) := by
    intro C hC
    apply hstatic C
    rcases List.mem_append.1 hC with h | h
    · exact List.mem_append_left _ h
    · exact List.mem_append_right _ (List.mem_cons_of_mem _ h)
  have hsX : allStatic [X] := by
    intro C hC
    exact hstatic C (by
      rw [List.mem_singleton] at hC
      subst hC
      exact List.mem_append_right _ (List.mem_cons_self _ _))
  refine ⟨fun M => ⟨hnil M, contributions_eq_nil E Pivot M L X (hnil M)⟩, ?_, ?_⟩
  · intro Map hrun
    obtain ⟨hm, hv⟩ := (Reconstruct_ok_static_iff E StaticMesh Pivot _ hstatic).1 ⟨Map, hrun⟩
    have hrest : ∃ Map1, Reconstruct E StaticMesh Pivot (Before ++ After) = .ok Map1 := by
      apply (Reconstruct_ok_static_iff E StaticMesh Pivot _ hs1).2
      constructor
      · intro C hC
        apply hm C
        rcases List.mem_append.1 hC with h | h
        · exact List.mem_append_left _ h
        · exact List.mem_append_right _ (List.mem_cons_of_mem _ h)
      · intro C hC
        apply hv C
        rcases List.mem_append.1 hC with h | h
        · exact List.mem_append_left _ h
        · exact List.mem_append_right _ (List.mem_cons_of_mem _ h)
    obtain ⟨Map1, hrun1⟩ := hrest
    exact ⟨Map1, hrun1, savedAt_congr E StaticMesh Pivot _ _ Map Map1 hrun hrun1 L
      (sectionContribs_remove E StaticMesh Pivot Before After X L hstatic hm hnil)⟩
  · intro Map1 MapX hrun1 hrunX
    obtain ⟨hm1, hv1⟩ := (Reconstruct_ok_static_iff E StaticMesh Pivot _ hs1).1 ⟨Map1, hrun1⟩
    obtain ⟨hmX, hvX⟩ := (Reconstruct_ok_static_iff E StaticMesh Pivot _ hsX).1 ⟨MapX, hrunX⟩
    have hm : meshesOk (Before ++ X :: After) := by
      intro C hC
      rcases List.mem_append.1 hC with h | h
      · exact hm1 C (List.mem_append_left _ h)
      · rcases List.mem_cons.1 h with rfl | h
        · exact hmX C (List.mem_singleton.2 rfl)
        · exact hm1 C (List.mem_append_right _ h)
    have hfull : ∃ Map, Reconstruct E StaticMesh Pivot (Before ++ X :: After) = .ok Map := by
      apply (Reconstruct_ok_static_iff E StaticMesh Pivot _ hstatic).2
      refine ⟨hm, ?_⟩
      intro C hC
      rcases List.mem_append.1 hC with h | h
      · exact hv1 C (List.mem_append_left _ h)
      · rcases List.mem_cons.1 h with rfl | h
        · exact hvX C (List.mem_singleton.2 rfl)
        · exact hv1 C (List.mem_append_right _ h)
    obtain ⟨Map, hrun⟩ := hfull
    exact ⟨Map, hrun, savedAt_congr E StaticMesh Pivot _ _ Map Map1 hrun hrun1 L
      (sectionContribs_remove E StaticMesh Pivot Before After X L hstatic hm hnil)⟩

/-- Witness of the amended C6 on scenario C: the second of three sources has no LOD 1; the batch of
LOD 1 is the same with and without it. -/
theorem missing_lod_same_batches_witness :
    allStatic (sceneC_before ++ sceneC_missing :: sceneC_after) ∧
    (meshOf 1 [[⟨0, 1000⟩]]).GetNumSections 1 = 0 ∧
    Reconstruct lineMath sceneC_merged 0 (sceneC_before ++ sceneC_missing :: sceneC_after) =
      .ok sceneC_map ∧
    Reconstruct lineMath sceneC_merged 0 (sceneC_before ++ sceneC_after) = .ok sceneC_map_rest ∧
    savedAt sceneC_map 1 0 = [⟨[⟨-5, 0, 250⟩, ⟨9, 250, 100⟩]⟩] ∧
    (∃ Map1, Reconstruct lineMath sceneC_merged 0 (sceneC_before ++ sceneC_after) = .ok Map1 ∧
      ∀ s, savedAt sceneC_map 1 s = savedAt Map1 1 s) :=
  have hs : allStatic (sceneC_before ++ sceneC_missing :: sceneC_after) := by
    intro C hC
    simp only [sceneC_before, sceneC_after, List.singleton_append, List.mem_cons,
      List.mem_singleton, List.not_mem_nil, or_false] at hC
    rcases hC with rfl | rfl | rfl <;> simp [sourceOf, sceneC_missing]
  ⟨hs, by decide, rfl, rfl, rfl,
    (missing_lod_same_batches lineMath sceneC_merged 0 sceneC_before sceneC_after sceneC_missing _
      (meshOf 1 [[⟨0, 1000⟩]]) 1 hs rfl rfl (by decide)).2.1 sceneC_map rfl⟩

/-- C7 (one batch per key). A run of `RunMerge` that returns, the merge having returned the
static mesh `StaticMesh`, has saved exactly one batch under every key (LOD index, section
index) of the merged mesh, LOD index below the number of merged LODs and section index below
the number of sections of that LOD, and no batch under any other key, whatever the component
list is. -/
theorem one_batch_per_key {V T B : Type} (E : EngineMath V T B)
    (Merge : List (UPrimitiveComponent T B) → List (UObject B) × V) (Pivot0 : V)
    (MergingComponents : List (UPrimitiveComponent T B)) (StaticMesh : UStaticMesh B)
    (Pivot : V) (Result : Bool × FGigaBatchMap B)
    (hmerge : MergeComponents Merge Pivot0 MergingComponents =
      .ok ([.StaticMesh StaticMesh], Pivot))
    (hrun : RunMerge E Merge Pivot0 MergingComponents = .ok Result) (L s : Nat) :
    (L < StaticMesh.GetNumLODs ∧ s < StaticMesh.GetNumSections L →
      ∃ Batch, savedAt Result.2 L s = [Batch]) ∧
    (¬ (L < StaticMesh.GetNumLODs ∧ s < StaticMesh.GetNumSections L) →
      savedAt Result.2 L s = []) := by
  obtain ⟨hrec, -⟩ :=
    Reconstruct_of_RunMerge E Merge Pivot0 MergingComponents StaticMesh Pivot Result hmerge hrun
  constructor
  · rintro ⟨hL, hs⟩
    obtain ⟨Secs, Sec, h1, h2⟩ := getElem?_of_lt_sections StaticMesh L s hL hs
    exact ⟨_, savedAt_Reconstruct_some E StaticMesh Pivot MergingComponents _ hrec L s Secs Sec
      h1 h2⟩
  · intro hn
    rw [savedAt_Reconstruct E StaticMesh Pivot MergingComponents _ hrec]
    cases h1 : StaticMesh.LODResources[L]? with
    | none => rfl
    | some Secs =>
      cases h2 : Secs[s]? with
      | none => simp [h2]
      | some Sec =>
        obtain ⟨a, b, _⟩ := lt_sections_of_getElem? StaticMesh L s Secs Sec h1 h2
        exact absurd ⟨a, b⟩ hn

/-- Witness of C7 on scenario B: the run returns, the key (0,1) holds one batch and the key
(1,0), which is no key of the merged mesh, holds none. -/
theorem one_batch_per_key_witness :
    MergeComponents (mergeTo sceneB_merged) 0 sceneB_sources =
      .ok ([.StaticMesh sceneB_merged], 0) ∧
    RunMerge lineMath (mergeTo sceneB_merged) 0 sceneB_sources = .ok (true, sceneB_map) ∧
    (∃ Batch, savedAt sceneB_map 0 1 = [Batch]) ∧ savedAt sceneB_map 1 0 = [] :=
  ⟨rfl, rfl,
   (one_batch_per_key lineMath (mergeTo sceneB_merged) 0 sceneB_sources sceneB_merged 0
      (true, sceneB_map) rfl rfl 0 1).1 ⟨by decide, by decide⟩,
   (one_batch_per_key lineMath (mergeTo sceneB_merged) 0 sceneB_sources sceneB_merged 0
      (true, sceneB_map) rfl rfl 1 0).2 (by decide)⟩

/-- C8 as stated fails in its last sentence. The merge returns exactly one asset, a static
mesh with one LOD, for a selection of one source whose mesh has two LODs; `RunMerge` passes
its check, starts the reconstruction and ends in the range check of `Resources[LODIndex]`
instead of returning true. -/
theorem RunMerge_true_counterexample :
    (∃ Asset, MergeComponents sceneL_merge 0 sceneL_sources = .ok ([Asset], 0)) ∧
    RunMerge lineMath sceneL_merge 0 sceneL_sources = .error .OutOfRange :=
  ⟨⟨_, rfl⟩, rfl⟩

/-- C8 amended. `RunMerge` fails at the check `Assets.Num() == 1`, with no batch computed or
saved, if and only if `MergeComponents` returned a number of assets different from one. With
an empty selection `MergeComponents` calls no merge and leaves the asset list empty, and
`RunMerge` fails at that check. With exactly one returned asset, a static mesh, `RunMerge`
goes on to the reconstruction and returns true with the batch map exactly when the
reconstruction completes; it completes when every selected component is a static-mesh
component with a mesh of at most as many LODs as the merged mesh and no material looked up
is null. -/
theorem RunMerge_check {V T B : Type} (E : EngineMath V T B)
    (Merge : List (UPrimitiveComponent T B) → List (UObject B) × V) (Pivot0 : V)
    (MergingComponents : List (UPrimitiveComponent T B)) :
    (RunMerge E Merge Pivot0 MergingComponents = .error .AssetsCheck ↔
      ∃ Assets Pivot, MergeComponents Merge Pivot0 MergingComponents = .ok (Assets, Pivot) ∧
        Assets.length ≠ 1) ∧
    (MergeComponents Merge Pivot0 [] = .ok ([], Pivot0) ∧
      RunMerge E Merge Pivot0 [] = .error .AssetsCheck) ∧
    (∀ StaticMesh Pivot,
      MergeComponents Merge Pivot0 MergingComponents = .ok ([.StaticMesh StaticMesh], Pivot) →
      (∀ Map, RunMerge E Merge Pivot0 MergingComponents = .ok (true, Map) ↔
        Reconstruct E StaticMesh Pivot MergingComponents = .ok Map) ∧
      (allStatic MergingComponents → meshesOk MergingComponents →
        lodsWithin StaticMesh MergingComponents → materialsSet StaticMesh MergingComponents →
        ∃ Map, RunMerge E Merge Pivot0 MergingComponents = .ok (true, Map))) := by
  refine ⟨?_, ⟨rfl, rfl⟩, ?_⟩
  · unfold RunMerge
    cases hM : MergeComponents Merge Pivot0 MergingComponents with
    | error e =>
      have he : e = .WorldCheck := by
        unfold MergeComponents at hM
        cases MergingComponents with
        | nil => simp at hM
        | cons C Rest =>
          dsimp only at hM
          split at hM
          · simp at hM
          · simp only [Except.error.injEq] at hM
            exact hM.symm
      subst he
      simp
    | ok out =>
      obtain ⟨Assets, Pivot⟩ := out
      dsimp only
      cases Assets with
      | nil => simp
      | cons Asset Rest =>
        cases Rest with
        | nil =>
          cases Asset with
          | StaticMesh SM =>
            dsimp only
            cases hR : Reconstruct E SM Pivot MergingComponents with
            | error e =>
              rcases Reconstruct_error_kind E SM Pivot MergingComponents e hR with rfl | rfl <;>
                simp
            | ok Map => simp
          | Other => simp
        | cons A2 Rest2 => simp
  · intro StaticMesh Pivot hM
    have hrun : RunMerge E Merge Pivot0 MergingComponents =
        match Reconstruct E StaticMesh Pivot MergingComponents with
        | .error e => .error e
        | .ok Map => .ok (true, Map) := by
      unfold RunMerge
      rw [hM]
    constructor
    · intro Map
      rw [hrun]
      cases Reconstruct E StaticMesh Pivot MergingComponents with
      | error e => simp
      | ok Map1 => simp
    · intro hs hm hl hmat
      obtain ⟨Map, hMap⟩ :=
        Reconstruct_ok_of_wellformed E StaticMesh Pivot MergingComponents hs hm hl hmat
      exact ⟨Map, by rw [hrun, hMap]⟩

/-- Witness of the amended C8 on scenario A: the merge returns the merged mesh as the only
asset, the reconstruction completes and `RunMerge` returns true with the batch map. -/
theorem RunMerge_check_witness :
    MergeComponents (fun _ => ([UObject.StaticMesh sceneA_merged], (0 : Int))) 0 sceneA_sources =
      .ok ([.StaticMesh sceneA_merged], 0) ∧
    Reconstruct lineMath sceneA_merged 0 sceneA_sources = .ok sceneA_map ∧
    RunMerge lineMath (fun _ => ([UObject.StaticMesh sceneA_merged], (0 : Int))) 0
      sceneA_sources = .ok (true, sceneA_map) :=
  ⟨rfl, rfl,
    (((RunMerge_check lineMath (fun _ => ([UObject.StaticMesh sceneA_merged], (0 : Int))) 0
      sceneA_sources).2.2 sceneA_merged 0 rfl).1 sceneA_map).2 rfl⟩

/-- C9 (index safety under precondition). If every selected component is a static-mesh
component and no source mesh has more LODs than the merged mesh, the reconstruction meets
no out-of-range array lookup. After the second pass every accumulator has `NumElements`
equal to the length of `ComponentIndex` and of `NumTriangles`, whatever the selection.
Without the precondition an out-of-range lookup is reachable: by a source with more LODs
than the merged mesh, and by a component that is no static-mesh component before a
static-mesh one. -/
theorem index_safety_of_lookups {V T B : Type} (E : EngineMath V T B) (StaticMesh : UStaticMesh B)
    (Pivot : V) (MergingComponents : List (UPrimitiveComponent T B)) :
    (allStatic MergingComponents → lodsWithin StaticMesh MergingComponents →
      Reconstruct E StaticMesh Pivot MergingComponents ≠ .error .OutOfRange) ∧
    (∀ SubBounds Resources,
      accumulateComponents E Pivot 0 MergingComponents [] (collectSections StaticMesh) =
        .ok (SubBounds, Resources) →
      ∀ Infos ∈ Resources, ∀ Info ∈ Infos,
        Info.ComponentIndex.length = Info.NumElements ∧
        Info.NumTriangles.length = Info.NumElements) ∧
    Reconstruct lineMath sceneL_merged 0 sceneL_sources = .error .OutOfRange ∧
    Reconstruct lineMath sceneL_merged 0 sceneO_sources = .error .OutOfRange := by
  refine ⟨?_, ?_, rfl, rfl⟩
  · intro hs hl h
    rcases Reconstruct_error E StaticMesh Pivot MergingComponents _ h with hacc | ⟨hm, _, hn⟩
    · rcases accumulateComponents_error E Pivot 0 MergingComponents [] _ _ hacc with
        h1 | ⟨-, C, hC, MC, Mesh, hMC, hMesh, hlt⟩
      · cases h1
      · have := hl C hC MC Mesh hMC hMesh
        simp only [collectSections_eq, List.length_map] at hlt
        unfold UStaticMesh.GetNumLODs at this
        omega
    · exact hn fun L _ _ _ _ => lookupsOk_of_static E Pivot MergingComponents hs hm _ L
  · intro SubBounds Resources hacc Infos hInfos Info hInfo
    obtain ⟨-, -, hout⟩ := (accumulateComponents_eq_ok_iff E Pivot 0 MergingComponents [] _ _).1 hacc
    simp only [Prod.mk.injEq] at hout
    obtain ⟨-, rfl⟩ := hout
    obtain ⟨L, hL⟩ := List.mem_iff_getElem?.1 hInfos
    rw [getElem?_final] at hL
    cases hS : StaticMesh.LODResources[L]? with
    | none => simp [hS] at hL
    | some Secs =>
      simp only [hS, Option.map_some', Option.some.injEq] at hL
      subst hL
      obtain ⟨Sec, _, rfl⟩ := List.mem_map.1 hInfo
      exact appendRecords_wf _ _ ⟨rfl, rfl⟩

/-- Witness of C9 on scenario A: two static-mesh sources with one LOD each, merged mesh with
one LOD; the run completes. -/
theorem index_safety_of_lookups_witness :
    allStatic sceneA_sources ∧ lodsWithin sceneA_merged sceneA_sources ∧
    Reconstruct lineMath sceneA_merged 0 sceneA_sources = .ok sceneA_map ∧
    Reconstruct lineMath sceneA_merged 0 sceneA_sources ≠ .error .OutOfRange :=
  have hs : allStatic sceneA_sources := by
    intro C hC
    simp only [sceneA_sources, List.mem_cons, List.mem_singleton, List.not_mem_nil,
      or_false] at hC
    rcases hC with rfl | rfl <;> simp [sourceOf]
  have hl : lodsWithin sceneA_merged sceneA_sources := by
    intro C hC MC Mesh hMC hMesh
    simp only [sceneA_sources, List.mem_cons, List.mem_singleton, List.not_mem_nil,
      or_false] at hC
    rcases hC with rfl | rfl <;>
    · simp only [sourceOf, Option.some.injEq] at hMC
      subst hMC
      simp only [Option.some.injEq] at hMesh
      subst hMesh
      decide
  ⟨hs, hl, rfl, (index_safety_of_lookups lineMath sceneA_merged 0 sceneA_sources).1 hs hl⟩

/-- C10 (per-LOD running offset). In a run that completes, for every LOD `L` and every
section index `s` of it, the concatenation of the batches of sections `0 .. s` of `L`, in
section order, starts at `FirstIndex` 0 and each `FirstIndex` in it is the previous
`FirstIndex` plus the previous `NumTriangles` modulo `2 ^ 32`; and the first element of the
batch of section `s` starts at the sum, modulo `2 ^ 32`, of `NumTriangles` over all elements
of the batches of sections `0 .. s-1` of `L`. Only batches of the same LOD enter, and the
batches of `L` stay the same when the other LODs of the merged mesh are changed. -/
theorem per_lod_running_offset {V T B : Type} (E : EngineMath V T B)
    (StaticMesh : UStaticMesh B) (Pivot : V) (MergingComponents : List (UPrimitiveComponent T B))
    (Map : FGigaBatchMap B)
    (hrun : Reconstruct E StaticMesh Pivot MergingComponents = .ok Map)
    (L s : Nat) (hs : s < StaticMesh.GetNumSections L) :
    (∀ e, (elementsBefore Map L (s + 1))[0]? = some e → e.FirstIndex = 0) ∧
    (∀ i e e1, (elementsBefore Map L (s + 1))[i]? = some e →
      (elementsBefore Map L (s + 1))[i + 1]? = some e1 →
      e1.FirstIndex = (e.FirstIndex + e.NumTriangles) % 2 ^ 32) ∧
    (∀ Batch ∈ savedAt Map L s, ∀ e, Batch.Elements[0]? = some e →
      e.FirstIndex = ((elementsBefore Map L s).map fun x => x.NumTriangles).sum % 2 ^ 32) ∧
    (∀ (Other : UStaticMesh B) (Map1 : FGigaBatchMap B),
      Other.GetMaterial = StaticMesh.GetMaterial →
      Other.LODResources[L]? = StaticMesh.LODResources[L]? →
      Reconstruct E Other Pivot MergingComponents = .ok Map1 →
      ∀ s1, savedAt Map1 L s1 = savedAt Map L s1) := by
  have hL : L < StaticMesh.GetNumLODs := by
    by_contra hL
    unfold UStaticMesh.GetNumSections at hs
    unfold UStaticMesh.GetNumLODs at hL
    rw [List.getD_eq_getElem?_getD, List.getElem?_eq_none (by omega)] at hs
    simp at hs
  obtain ⟨Secs, Sec, h1, h2⟩ := getElem?_of_lt_sections StaticMesh L s hL hs
  have hlt : s < Secs.length := (List.getElem?_eq_some.1 h2).1
  have hpre1 := elementsBefore_Reconstruct E StaticMesh Pivot MergingComponents Map hrun L (s + 1)
    Secs h1 hlt
  have hpre := elementsBefore_Reconstruct E StaticMesh Pivot MergingComponents Map hrun L s Secs
    h1 (Nat.le_of_lt hlt)
  rw [hpre1, hpre]
  obtain ⟨c0, c1⟩ := pack_contiguous
    ((Secs.take (s + 1)).map (sectionContribs E StaticMesh Pivot MergingComponents L)).flatten 0
  refine ⟨c0, c1, ?_, ?_⟩
  · intro Batch hB e he
    rw [savedAt_Reconstruct_some E StaticMesh Pivot MergingComponents Map hrun L s Secs Sec h1 h2,
      List.mem_singleton] at hB
    subst hB
    rw [(pack_contiguous _ _).1 e he, advance_zero, pack_map_NumTriangles]
  · intro Other Map1 hG hO hrun1 s1
    have hc : sectionContribs E Other Pivot MergingComponents L =
        sectionContribs E StaticMesh Pivot MergingComponents L := by
      funext S
      simp only [sectionContribs, hG]
    rw [savedAt_Reconstruct E Other Pivot MergingComponents Map1 hrun1,
      savedAt_Reconstruct E StaticMesh Pivot MergingComponents Map hrun, hO, hc]

/-- Witness of C10 on scenario B: the batch of section 1 starts at 2000, the number of
triangles of the batch of section 0. -/
theorem per_lod_running_offset_witness :
    Reconstruct lineMath sceneB_merged 0 sceneB_sources = .ok sceneB_map ∧
    1 < sceneB_merged.GetNumSections 0 ∧
    elementsBefore sceneB_map 0 2 = [⟨-5, 0, 1200⟩, ⟨5, 1200, 800⟩, ⟨9, 2000, 500⟩] ∧
    (∀ Batch ∈ savedAt sceneB_map 0 1, ∀ e, Batch.Elements[0]? = some e →
      e.FirstIndex = ((elementsBefore sceneB_map 0 1).map fun x => x.NumTriangles).sum % 2 ^ 32) :=
  ⟨rfl, by decide, rfl,
    (per_lod_running_offset lineMath sceneB_merged 0 sceneB_sources sceneB_map rfl 0 1
      (by decide)).2.2.1⟩

end GigaMerge
